import Mathlib

/-!
Shallow embedding of the Texas Hold'em rules engine
(src/core/deck.ts, src/core/hand-evaluator.ts and the GameEngine class).

Conventions of the translation:
* TypeScript `number` chip/bet/pot quantities become `Int` (all arithmetic in
  the source is exact integer arithmetic on safe-range values).
* JavaScript array mutation becomes functional update of a `List`.
* `Array.prototype.sort`, which is a stable sort, is modelled by a stable
  insertion sort `sortWith` parameterised by the same numeric comparator.
* JavaScript `Map` iteration order is insertion order; rank/suit grouping is
  modelled by association lists that preserve first-insertion order.
* Code that can throw (evaluating fewer than 5 cards, touching a `null`
  card, `pots[0]!` on an empty pot list, a `while` loop that can spin on an
  exhausted deck) is modelled with `Option`, `none` meaning the call does
  not return normally.
-/

namespace Holdem

/-- Card suits, from src/core/types.ts. -/
inductive Suit where
  | hearts | diamonds | clubs | spades
deriving DecidableEq, Repr

/-- Card ranks, from src/core/types.ts (string literals "2" .. "A"). -/
inductive Rank where
  | r2 | r3 | r4 | r5 | r6 | r7 | r8 | r9 | r10 | rJ | rQ | rK | rA
deriving DecidableEq, Repr

/-- A playing card, from src/core/types.ts. -/
structure Card where
  suit : Suit
  rank : Rank
deriving DecidableEq, Repr

/-- `getRankValue` from src/core/deck.ts. -/
def getRankValue : Rank → Int
  | .r2 => 2
  | .r3 => 3
  | .r4 => 4
  | .r5 => 5
  | .r6 => 6
  | .r7 => 7
  | .r8 => 8
  | .r9 => 9
  | .r10 => 10
  | .rJ => 11
  | .rQ => 12
  | .rK => 13
  | .rA => 14

/-- Rank display string, as the TS string literal of the rank. -/
def rankString : Rank → String
  | .r2 => "2"
  | .r3 => "3"
  | .r4 => "4"
  | .r5 => "5"
  | .r6 => "6"
  | .r7 => "7"
  | .r8 => "8"
  | .r9 => "9"
  | .r10 => "10"
  | .rJ => "J"
  | .rQ => "Q"
  | .rK => "K"
  | .rA => "A"

/-- Hand categories, from src/core/types.ts. -/
inductive HandRank where
  | royalFlush | straightFlush | fourOfAKind | fullHouse | flush
  | straight | threeOfAKind | twoPair | onePair | highCard
deriving DecidableEq, Repr

/-- `HAND_RANK_VALUES` from src/core/hand-evaluator.ts. -/
def handRankValue : HandRank → Int
  | .royalFlush => 10
  | .straightFlush => 9
  | .fourOfAKind => 8
  | .fullHouse => 7
  | .flush => 6
  | .straight => 5
  | .threeOfAKind => 4
  | .twoPair => 3
  | .onePair => 2
  | .highCard => 1

/-- `HAND_DESCRIPTIONS` from src/core/hand-evaluator.ts. -/
def handDescription : HandRank → String
  | .royalFlush => "皇家同花顺"
  | .straightFlush => "同花顺"
  | .fourOfAKind => "四条"
  | .fullHouse => "葫芦"
  | .flush => "同花"
  | .straight => "顺子"
  | .threeOfAKind => "三条"
  | .twoPair => "两对"
  | .onePair => "一对"
  | .highCard => "高牌"

/-- `HandResult` from src/core/types.ts. -/
structure HandResult where
  rank : HandRank
  rankValue : Int
  cards : List Card
  kickers : List Int
  description : String
deriving DecidableEq, Repr

/-- Stable insertion of `x` into `l`: `x` passes over exactly the elements
that the comparator puts strictly before it.  Together with `sortWith` this
models JavaScript stable `Array.prototype.sort(cmp)` in ascending comparator
order. -/
def insertWith (cmp : α → α → Int) (x : α) : List α → List α
  | [] => [x]
  | y :: ys => if cmp y x < 0 then y :: insertWith cmp x ys else x :: y :: ys

/-- Stable sort by a JavaScript-style numeric comparator (ascending). -/
def sortWith (cmp : α → α → Int) : List α → List α
  | [] => []
  | x :: xs => insertWith cmp x (sortWith cmp xs)

theorem insertWith_perm (cmp : α → α → Int) (x : α) (l : List α) :
    (insertWith cmp x l).Perm (x :: l) := by
  induction l with
  | nil => simp [insertWith]
  | cons y ys ih =>
    simp only [insertWith]
    split
    · exact ((ih.cons y).trans (List.Perm.swap x y ys))
    · exact List.Perm.refl _

theorem sortWith_perm (cmp : α → α → Int) (l : List α) :
    (sortWith cmp l).Perm l := by
  induction l with
  | nil => simp [sortWith]
  | cons x xs ih =>
    exact (insertWith_perm cmp x (sortWith cmp xs)).trans (ih.cons x)

/-- `[...new Set(xs)]`: deduplication preserving first-occurrence order. -/
def dedupFirst (l : List Int) : List Int :=
  l.foldl (fun acc v => if v ∈ acc then acc else acc ++ [v]) []

/-- Association-list grouping preserving JavaScript `Map` insertion order;
each new card is pushed at the end of its group. -/
def addToGroups [DecidableEq κ] (k : κ) (c : Card) :
    List (κ × List Card) → List (κ × List Card)
  | [] => [(k, [c])]
  | (k₀, cs) :: rest =>
    if k₀ = k then (k₀, cs ++ [c]) :: rest else (k₀, cs) :: addToGroups k c rest

/-- `groupByRank` from src/core/hand-evaluator.ts. -/
def groupByRank (cards : List Card) : List (Rank × List Card) :=
  cards.foldl (fun gs c => addToGroups c.rank c gs) []

/-- `groupBySuit` from src/core/hand-evaluator.ts. -/
def groupBySuit (cards : List Card) : List (Suit × List Card) :=
  cards.foldl (fun gs c => addToGroups c.suit c gs) []

/-- Lookup of a group by key; the source uses `byRank.get(rank)!` on keys that
are always present, so the `[]` default is unreachable there. -/
def lookupGroup [DecidableEq κ] (gs : List (κ × List Card)) (k : κ) : List Card :=
  ((gs.find? (fun g => decide (g.1 = k))).map (·.2)).getD []

/-- Inner scan of `getStraightHighCard`: over the distinct values in
descending order, return the first value opening a window of five
consecutive values. -/
def straightScan : List Int → Option Int
  | v1 :: v2 :: v3 :: v4 :: v5 :: rest =>
    if v1 - v2 = 1 ∧ v2 - v3 = 1 ∧ v3 - v4 = 1 ∧ v4 - v5 = 1 then some v1
    else straightScan (v2 :: v3 :: v4 :: v5 :: rest)
  | _ => none

/-- `getStraightHighCard` from src/core/hand-evaluator.ts: the wheel
(A-2-3-4-5) is checked first and short-circuits the search for an ordinary
straight. -/
def getStraightHighCard (cards : List Card) : Option Int :=
  let values :=
    sortWith (fun a b => b - a) (dedupFirst (cards.map (fun c => getRankValue c.rank)))
  if values.contains 14 ∧ values.contains 2 ∧ values.contains 3 ∧
      values.contains 4 ∧ values.contains 5 then
    some 5
  else
    straightScan values

/-- Comparator used to sort cards by descending rank value. -/
def byRankDesc (a b : Card) : Int := getRankValue b.rank - getRankValue a.rank

/-- `getFlushCards` from src/core/hand-evaluator.ts: the first suit group (in
insertion order) holding at least 5 cards, sorted by descending rank, first
five taken. -/
def getFlushCards (cards : List Card) : Option (List Card) :=
  ((groupBySuit cards).find? (fun g => decide (5 ≤ g.2.length))).map
    (fun g => (sortWith byRankDesc g.2).take 5)

/-- The per-value card picking used to realise a straight: for each wanted
value, the first card of that value, skipped when absent. -/
def pickByValues (cards : List Card) (vs : List Int) : List Card :=
  vs.filterMap (fun v => cards.find? (fun c => decide (getRankValue c.rank = v)))

/-- The five wanted values of a straight with the given high card: the wheel
is `5 4 3 2 A`, otherwise five consecutive values down from the high card. -/
def straightValueList (highCard : Int) : List Int :=
  if highCard = 5 then [5, 4, 3, 2, 14]
  else [highCard, highCard - 1, highCard - 2, highCard - 3, highCard - 4]

/-- Suit-group scan of `getStraightFlushCards`. -/
def sfScan : List (Suit × List Card) → Option (List Card × Int)
  | [] => none
  | (_, suitCards) :: rest =>
    if 5 ≤ suitCards.length then
      match getStraightHighCard suitCards with
      | some hc => some (pickByValues suitCards (straightValueList hc), hc)
      | none => sfScan rest
    else sfScan rest

/-- `getStraightFlushCards` from src/core/hand-evaluator.ts. -/
def getStraightFlushCards (cards : List Card) : Option (List Card × Int) :=
  sfScan (groupBySuit cards)

/-- One entry of the `rankCounts` array of `evaluateHand`. -/
structure RankCount where
  rank : Rank
  count : Nat
  value : Int
deriving DecidableEq, Repr

/-- Comparator of `rankCounts`: by descending count, then descending value
(JavaScript `b.count - a.count || b.value - a.value`). -/
def rankCountCmp (a b : RankCount) : Int :=
  let d : Int := (b.count : Int) - (a.count : Int)
  if d ≠ 0 then d else b.value - a.value

/-- The sorted `rankCounts` array of `evaluateHand`. -/
def rankCounts (cards : List Card) : List RankCount :=
  sortWith rankCountCmp
    ((groupByRank cards).map (fun g => ⟨g.1, g.2.length, getRankValue g.1⟩))

/-- A junk card standing for the unreachable `undefined` of the non-null
assertions of the source (all of them guarded by facts that make a match
exist); it can never surface on inputs with at least 5 cards. -/
def defaultCard : Card := ⟨.hearts, .r2⟩

/-- The body of `evaluateHand` from src/core/hand-evaluator.ts, after the
five-card precondition check. -/
def evaluateHandCore (cards : List Card) : HandResult :=
  let byRank := groupByRank cards
  let counts := rankCounts cards
  match getStraightFlushCards cards with
  | some sf =>
    let isRoyal := sf.2 = 14
    if isRoyal then
      { rank := .royalFlush, rankValue := handRankValue .royalFlush,
        cards := sf.1, kickers := [sf.2],
        description := handDescription .royalFlush }
    else
      { rank := .straightFlush, rankValue := handRankValue .straightFlush,
        cards := sf.1, kickers := [sf.2],
        description := handDescription .straightFlush ++ " (" ++ toString sf.2 ++ "高)" }
  | none =>
  match counts.find? (fun r => decide (r.count = 4)) with
  | some four =>
    let quadCards := lookupGroup byRank four.rank
    let kickerCards :=
      sortWith byRankDesc (cards.filter (fun c => decide (c.rank ≠ four.rank)))
    let kicker := kickerCards.headD defaultCard
    { rank := .fourOfAKind, rankValue := handRankValue .fourOfAKind,
      cards := quadCards ++ [kicker],
      kickers := [four.value, getRankValue kicker.rank],
      description := handDescription .fourOfAKind ++ " (" ++ rankString four.rank ++ ")" }
  | none =>
  let three := counts.find? (fun r => decide (r.count = 3))
  let pairs := counts.filter
    (fun r => decide (2 ≤ r.count) && !(three.any (fun t => t.rank == r.rank)))
  match three, pairs with
  | some t, fp :: _ =>
    let tripCards := (lookupGroup byRank t.rank).take 3
    let pairCards := (lookupGroup byRank fp.rank).take 2
    { rank := .fullHouse, rankValue := handRankValue .fullHouse,
      cards := tripCards ++ pairCards, kickers := [t.value, fp.value],
      description := handDescription .fullHouse ++ " (" ++ rankString t.rank
        ++ "满" ++ rankString fp.rank ++ ")" }
  | _, _ =>
  match getFlushCards cards with
  | some flushCards =>
    { rank := .flush, rankValue := handRankValue .flush,
      cards := flushCards, kickers := flushCards.map (fun c => getRankValue c.rank),
      description := handDescription .flush ++ " ("
        ++ rankString (flushCards.headD defaultCard).rank ++ "高)" }
  | none =>
  match getStraightHighCard cards with
  | some hc =>
    let sorted := sortWith byRankDesc cards
    let straightCards := pickByValues sorted (straightValueList hc)
    { rank := .straight, rankValue := handRankValue .straight,
      cards := straightCards, kickers := [hc],
      description := handDescription .straight ++ " (" ++ toString hc ++ "高)" }
  | none =>
  match counts.find? (fun r => decide (r.count = 3)) with
  | some t =>
    let tripCards := (lookupGroup byRank t.rank).take 3
    let kickers :=
      (sortWith byRankDesc (cards.filter (fun c => decide (c.rank ≠ t.rank)))).take 2
    { rank := .threeOfAKind, rankValue := handRankValue .threeOfAKind,
      cards := tripCards ++ kickers,
      kickers := t.value :: kickers.map (fun c => getRankValue c.rank),
      description := handDescription .threeOfAKind ++ " (" ++ rankString t.rank ++ ")" }
  | none =>
  match counts.filter (fun r => decide (r.count = 2)) with
  | p1 :: p2 :: _ =>
    let highPair := (lookupGroup byRank p1.rank).take 2
    let lowPair := (lookupGroup byRank p2.rank).take 2
    let kickerCards := sortWith byRankDesc
      (cards.filter (fun c => decide (c.rank ≠ p1.rank) && decide (c.rank ≠ p2.rank)))
    let kicker := kickerCards.headD defaultCard
    { rank := .twoPair, rankValue := handRankValue .twoPair,
      cards := highPair ++ lowPair ++ [kicker],
      kickers := [p1.value, p2.value, getRankValue kicker.rank],
      description := handDescription .twoPair ++ " (" ++ rankString p1.rank
        ++ "和" ++ rankString p2.rank ++ ")" }
  | [p] =>
    let pairCards := (lookupGroup byRank p.rank).take 2
    let kickers :=
      (sortWith byRankDesc (cards.filter (fun c => decide (c.rank ≠ p.rank)))).take 3
    { rank := .onePair, rankValue := handRankValue .onePair,
      cards := pairCards ++ kickers,
      kickers := p.value :: kickers.map (fun c => getRankValue c.rank),
      description := handDescription .onePair ++ " (" ++ rankString p.rank ++ ")" }
  | [] =>
    let highCards := (sortWith byRankDesc cards).take 5
    { rank := .highCard, rankValue := handRankValue .highCard,
      cards := highCards, kickers := highCards.map (fun c => getRankValue c.rank),
      description := handDescription .highCard ++ " ("
        ++ rankString (highCards.headD defaultCard).rank ++ ")" }

/-- `evaluateHand` from src/core/hand-evaluator.ts; `none` models the
`Need at least 5 cards` exception. -/
def evaluateHand (cards : List Card) : Option HandResult :=
  if cards.length < 5 then none else some (evaluateHandCore cards)

/-- Kicker comparison loop of `compareHands`: first differing kicker within
the common prefix decides. -/
def compareKickers : List Int → List Int → Int
  | k1 :: t1, k2 :: t2 => if k1 ≠ k2 then k1 - k2 else compareKickers t1 t2
  | _, _ => 0

/-- `compareHands` from src/core/hand-evaluator.ts. -/
def compareHands (h1 h2 : HandResult) : Int :=
  if h1.rankValue ≠ h2.rankValue then h1.rankValue - h2.rankValue
  else compareKickers h1.kickers h2.kickers

/-- Input entry of `findWinners`. -/
structure PlayerHand where
  playerId : String
  cards : List Card
  communityCards : List Card
deriving DecidableEq, Repr

/-- Output entry of `findWinners`. -/
structure PlayerWin where
  playerId : String
  hand : HandResult
deriving DecidableEq, Repr

/-- Elementwise evaluation of a fallible function over a list; `none` as
soon as one element fails, modelling an exception thrown inside a
JavaScript `map` callback. -/
def mapOpt (f : α → Option β) : List α → Option (List β)
  | [] => some []
  | a :: l =>
    match f a, mapOpt f l with
    | some b, some r => some (b :: r)
    | _, _ => none

/-- `findWinners` from src/core/hand-evaluator.ts; `none` propagates an
evaluator exception. -/
def findWinners (playerHands : List PlayerHand) : Option (List PlayerWin) :=
  match mapOpt (fun ph =>
      (evaluateHand (ph.cards ++ ph.communityCards)).map
        (fun h => PlayerWin.mk ph.playerId h)) playerHands with
  | none => none
  | some results =>
    let sorted := sortWith (fun a b => compareHands b.hand a.hand) results
    match sorted with
    | [] => some []
    | best :: _ =>
      some (sorted.filter (fun r => decide (compareHands r.hand best.hand = 0)))

/-- Game phases, from src/core/types.ts. -/
inductive Phase where
  | waiting | preflop | flop | turn | river | showdown | ended
deriving DecidableEq, Repr

/-- Player actions, from src/core/types.ts. -/
inductive PlayerAction where
  | fold | check | call | raise | allIn
deriving DecidableEq, Repr

/-- `Player` from src/core/types.ts.  Hole cards are `Option Card` so that the
`null` placeholders produced by `getStateForPlayer` (cast to `Card[]` in the
source) are representable; the engine itself only ever stores `some` cards.
The optional `joinedMidGame` flag is a `Bool` with `false` for `undefined`. -/
structure Player where
  id : String
  name : String
  avatar : Option String
  chips : Int
  cards : List (Option Card)
  bet : Int
  totalBet : Int
  folded : Bool
  isAllIn : Bool
  isActive : Bool
  isTurn : Bool
  isDealer : Bool
  isSmallBlind : Bool
  isBigBlind : Bool
  seatIndex : Nat
  isConnected : Bool
  hasActedThisRound : Bool
  joinedMidGame : Bool
deriving DecidableEq, Repr

/-- `Pot` from src/core/types.ts. -/
structure Pot where
  amount : Int
  eligiblePlayers : List String
deriving DecidableEq, Repr

/-- The `lastAction` record of `GameState`. -/
structure LastAction where
  playerId : String
  action : PlayerAction
  amount : Option Int
  phase : Phase
deriving DecidableEq, Repr

/-- `WinnerInfo` from src/core/types.ts. -/
structure WinnerInfo where
  playerId : String
  potIndex : Nat
  amount : Int
  hand : HandResult
deriving DecidableEq, Repr

/-- `GameState` from src/core/types.ts (the wall-clock timer fields, which
the engine never reads, are omitted). -/
structure GameState where
  phase : Phase
  players : List Player
  communityCards : List Card
  pots : List Pot
  currentBet : Int
  minRaise : Int
  dealerIndex : Nat
  currentPlayerIndex : Nat
  smallBlind : Int
  bigBlind : Int
  lastAction : Option LastAction
  winners : Option (List WinnerInfo)
deriving DecidableEq, Repr

/-- Functional update of the list element at an index (JavaScript mutation of
an element reached through an alias). -/
def updAt (l : List α) (i : Nat) (f : α → α) : List α :=
  match l, i with
  | [], _ => []
  | x :: xs, 0 => f x :: xs
  | x :: xs, n + 1 => x :: updAt xs n f

/-- Sum of the chip stacks of all players. -/
def sumChips (s : GameState) : Int := (s.players.map (·.chips)).sum

/-- Sum of the current-street bets of all players. -/
def sumBets (s : GameState) : Int := (s.players.map (·.bet)).sum

/-- Sum of the amounts of all pots. -/
def sumPots (s : GameState) : Int := (s.pots.map (·.amount)).sum

namespace GameEngine

/-- `getStateForPlayer` from the GameEngine: every other player's hole cards
are blanked to `null` placeholders of the same count unless the phase is
showdown. -/
def getStateForPlayer (s : GameState) (playerId : String) : GameState :=
  { s with players := s.players.map (fun p =>
      if p.id = playerId ∨ s.phase = Phase.showdown then p
      else { p with cards := p.cards.map (fun _ => none) }) }

/-- `postBlind` from the GameEngine; `none` models the crash of
`pots[0]!` on an empty pot list (the missing/folded-player early return
leaves the state unchanged, as in the source). -/
def postBlind (s : GameState) (playerIndex : Nat) (amount : Int)
    (isSmallBlind : Bool) : Option GameState :=
  match s.players[playerIndex]? with
  | none => some s
  | some player =>
    if player.folded then some s
    else
      match s.pots with
      | [] => none
      | pot0 :: restPots =>
        let actualAmount := min amount player.chips
        let p1 := { player with
          chips := player.chips - actualAmount,
          bet := actualAmount,
          totalBet := actualAmount }
        let p2 := if isSmallBlind then { p1 with isSmallBlind := true }
                  else { p1 with isBigBlind := true }
        let p3 := if p2.chips = 0 then { p2 with isAllIn := true } else p2
        some { s with
          players := s.players.set playerIndex p3,
          pots := { pot0 with amount := pot0.amount + actualAmount } :: restPots }

/-- The scanning loop of `findNextActivePlayer`, with the remaining
iteration budget (`players.length - count`) as fuel. -/
def findNextLoop (players : List Player) (fromIndex : Nat) : Nat → Nat → Nat
  | _, 0 => fromIndex
  | index, fuel + 1 =>
    match players[index]? with
    | some player =>
      if !player.folded && decide (0 < player.chips) && player.isConnected then index
      else findNextLoop players fromIndex ((index + 1) % players.length) fuel
    | none => findNextLoop players fromIndex ((index + 1) % players.length) fuel

/-- `findNextActivePlayer` from the GameEngine. -/
def findNextActivePlayer (players : List Player) (fromIndex : Nat) : Nat :=
  findNextLoop players fromIndex ((fromIndex + 1) % players.length) players.length

/-- `canCheck` from the GameEngine. -/
def canCheck (player : Player) (s : GameState) : Bool :=
  decide (s.currentBet ≤ player.bet)

/-- `canCall` from the GameEngine. -/
def canCall (player : Player) (s : GameState) : Bool :=
  decide (player.bet < s.currentBet) && decide (0 < player.chips)

/-- `canRaise` from the GameEngine; `amount` is the raise increment above the
current bet, `none` when called without an amount. -/
def canRaise (player : Player) (s : GameState) (amount : Option Int) : Bool :=
  let minRaiseIncrement := s.minRaise
  let maxRaiseIncrement := player.chips + player.bet - s.currentBet
  match amount with
  | some a => decide (minRaiseIncrement ≤ a) && decide (a ≤ maxRaiseIncrement)
  | none => decide (minRaiseIncrement ≤ maxRaiseIncrement)

/-- `getValidActions` from the GameEngine. -/
def getValidActions (s : GameState) (playerId : String) : List PlayerAction :=
  match s.players.find? (fun p => p.id == playerId) with
  | none => []
  | some player =>
    if player.folded || player.isAllIn then []
    else
      [PlayerAction.fold]
        ++ (if canCheck player s then [PlayerAction.check] else [])
        ++ (if canCall player s then [PlayerAction.call] else [])
        ++ (if canRaise player s none then [PlayerAction.raise] else [])
        ++ (if decide (0 < player.chips) then [PlayerAction.allIn] else [])

/-- `handleFold` from the GameEngine (`i` is the position of the acting
player, through which the source mutates it). -/
def handleFold (s : GameState) (i : Nat) (player : Player) : GameState :=
  { s with
    players := s.players.set i { player with folded := true, isTurn := false },
    pots := s.pots.map (fun pot =>
      { pot with eligiblePlayers :=
          pot.eligiblePlayers.filter (fun pid => pid != player.id) }) }

/-- `handleCheck` from the GameEngine. -/
def handleCheck (s : GameState) (i : Nat) (player : Player) : GameState :=
  { s with players := s.players.set i { player with isTurn := false } }

/-- `handleCall` from the GameEngine; `none` models `pots[0]!` crashing on an
empty pot list. -/
def handleCall (s : GameState) (i : Nat) (player : Player) : Option GameState :=
  match s.pots with
  | [] => none
  | pot0 :: restPots =>
    let callAmount := min (s.currentBet - player.bet) player.chips
    let p1 := { player with
      chips := player.chips - callAmount,
      bet := player.bet + callAmount,
      totalBet := player.totalBet + callAmount }
    let p2 : Player := if p1.chips = 0 then { p1 with isAllIn := true } else p1
    some { s with
      players := s.players.set i { p2 with isTurn := false },
      pots := { pot0 with amount := pot0.amount + callAmount } :: restPots }

/-- `handleRaise` from the GameEngine. -/
def handleRaise (s : GameState) (i : Nat) (player : Player) (amount : Int) :
    Option GameState :=
  match s.pots with
  | [] => none
  | pot0 :: restPots =>
    let totalBet := s.currentBet + amount
    let raiseAmount := totalBet - player.bet
    let p1 := { player with
      chips := player.chips - raiseAmount,
      bet := totalBet,
      totalBet := player.totalBet + raiseAmount }
    let p2 : Player := if p1.chips = 0 then { p1 with isAllIn := true } else p1
    some { s with
      players := s.players.set i { p2 with isTurn := false },
      pots := { pot0 with amount := pot0.amount + raiseAmount } :: restPots,
      minRaise := amount,
      currentBet := totalBet }

/-- `handleAllIn` from the GameEngine. -/
def handleAllIn (s : GameState) (i : Nat) (player : Player) : Option GameState :=
  match s.pots with
  | [] => none
  | pot0 :: restPots =>
    let allInAmount := player.chips
    let newBet := player.bet + allInAmount
    let newCurrentBet := if s.currentBet < newBet then newBet else s.currentBet
    let newMinRaise :=
      if s.currentBet < newBet ∧ s.minRaise ≤ newBet - s.currentBet then
        newBet - s.currentBet
      else s.minRaise
    let p1 := { player with
      chips := 0,
      bet := newBet,
      totalBet := player.totalBet + allInAmount,
      isAllIn := true,
      isTurn := false }
    some { s with
      players := s.players.set i p1,
      pots := { pot0 with amount := pot0.amount + allInAmount } :: restPots,
      currentBet := newCurrentBet,
      minRaise := newMinRaise }

/-- `setCurrentPlayerTurn` from the GameEngine. -/
def setCurrentPlayerTurn (s : GameState) : GameState :=
  let cleared := s.players.map (fun p => { p with isTurn := false })
  match cleared[s.currentPlayerIndex]? with
  | some current =>
    if !current.folded && !current.isAllIn then
      { s with players := cleared.set s.currentPlayerIndex { current with isTurn := true } }
    else { s with players := cleared }
  | none => { s with players := cleared }

/-- The do-while loop of `advanceToNextPlayer`; fuel is
`players.length - attempts`. -/
def advanceLoop (players : List Player) (idx : Nat) : Nat → Nat
  | 0 => (idx + 1) % players.length
  | fuel + 1 =>
    let next := (idx + 1) % players.length
    match players[next]? with
    | some p => if p.folded || p.isAllIn then advanceLoop players next fuel else next
    | none => next

/-- `advanceToNextPlayer` from the GameEngine. -/
def advanceToNextPlayer (s : GameState) : GameState :=
  let next := advanceLoop s.players s.currentPlayerIndex (s.players.length - 1)
  setCurrentPlayerTurn { s with currentPlayerIndex := next }

/-- `isBettingRoundOver` from the GameEngine. -/
def isBettingRoundOver (s : GameState) : Bool :=
  let activePlayers := s.players.filter (fun p => !p.folded && !p.isAllIn)
  if activePlayers.length = 0 then true
  else activePlayers.all (fun p => p.hasActedThisRound && decide (p.bet = s.currentBet))

/-- `shouldGoToShowdown` from the GameEngine. -/
def shouldGoToShowdown (s : GameState) : Bool :=
  let activePlayers := s.players.filter (fun p => !p.folded)
  let notAllIn := activePlayers.filter (fun p => !p.isAllIn)
  decide (notAllIn.length ≤ 1)

/-- `isHandOver` from the GameEngine. -/
def isHandOver (s : GameState) : Bool :=
  let activePlayers := s.players.filter (fun p => !p.folded)
  if activePlayers.length = 1 then true
  else
    let notAllIn := activePlayers.filter (fun p => !p.isAllIn)
    if decide (notAllIn.length ≤ 1) && isBettingRoundOver s then
      (s.phase == Phase.river) || shouldGoToShowdown s
    else false

/-- `calculateSidePots` from the GameEngine: when any non-folded player is
all-in, the pot list is replaced by a single pot holding the total of all
non-folded players' cumulative bets. -/
def calculateSidePots (s : GameState) : GameState :=
  let activePlayers := s.players.filter (fun p => !p.folded)
  let allInPlayers := activePlayers.filter (fun p => p.isAllIn)
  if allInPlayers.length = 0 then s
  else
    { s with pots := [{ amount := (activePlayers.map (·.totalBet)).sum,
                        eligiblePlayers := activePlayers.map (·.id) }] }

/-- `Deck.deal` from src/core/deck.ts: `cards.pop()` takes the last card of
the remaining-deck array (the discard pile `dealtCards` is never read back
and is omitted). -/
def dealCard (deck : List Card) : Option Card × List Card :=
  match deck.getLast? with
  | none => (none, deck)
  | some c => (some c, deck.dropLast)

/-- The dealing loop of `dealCommunityCards`: deal `count` cards, pushing
each non-null one onto the board. -/
def dealLoop : Nat → List Card → List Card → List Card × List Card
  | 0, comm, deck => (comm, deck)
  | n + 1, comm, deck =>
    match dealCard deck with
    | (some c, deck₁) => dealLoop n (comm ++ [c]) deck₁
    | (none, deck₁) => dealLoop n comm deck₁

/-- `dealCommunityCards` from the GameEngine: one burn card, then `count`
cards onto the board. -/
def dealCommunityCards (s : GameState) (deck : List Card) (count : Nat) :
    GameState × List Card :=
  let deck₁ := (dealCard deck).2
  let (comm, deck₂) := dealLoop count s.communityCards deck₁
  ({ s with communityCards := comm }, deck₂)

/-- The `while` loop of `dealRemainingCards`: deal 3 cards when the board is
empty, otherwise 1, until the board holds 5 cards.  Fuel is the deck size:
every iteration on a non-empty deck consumes at least the burn card, and on
an empty deck the source loop would never terminate, modelled by `none`. -/
def dealRemainingLoop : Nat → GameState → List Card → Option (GameState × List Card)
  | 0, s, deck => if 5 ≤ s.communityCards.length then some (s, deck) else none
  | fuel + 1, s, deck =>
    if 5 ≤ s.communityCards.length then some (s, deck)
    else if deck.isEmpty then none
    else
      let n := if s.communityCards.length = 0 then 3 else 1
      let (s₁, deck₁) := dealCommunityCards s deck n
      dealRemainingLoop fuel s₁ deck₁

/-- `dealRemainingCards` from the GameEngine. -/
def dealRemainingCards (s : GameState) (deck : List Card) :
    Option (GameState × List Card) :=
  (dealRemainingLoop deck.length s deck).map
    (fun r => ({ r.1 with phase := Phase.showdown }, r.2))

/-- The `while` loop at the head of the showdown branch of `endHand`: burn
one card and deal one card until the board holds 5 cards.  Fuel as in
`dealRemainingLoop`. -/
def endHandDealLoop : Nat → List Card → List Card → Option (List Card × List Card)
  | 0, comm, deck => if 5 ≤ comm.length then some (comm, deck) else none
  | fuel + 1, comm, deck =>
    if 5 ≤ comm.length then some (comm, deck)
    else if deck.isEmpty then none
    else
      let deck₁ := (dealCard deck).2
      match dealCard deck₁ with
      | (some c, deck₂) => endHandDealLoop fuel (comm ++ [c]) deck₂
      | (none, deck₂) => endHandDealLoop fuel comm deck₂

/-- The hand evaluated for a player who wins because everyone else folded
(the literal `HandResult` of the single-winner branch of `endHand`). -/
def foldWinHand : HandResult :=
  { rank := .highCard, rankValue := 1, cards := [], kickers := [],
    description := "其他玩家弃牌" }

/-- Credit the first player satisfying the predicate with `amount` chips
(the single-winner branch of `endHand` mutates `activePlayers[0]`, an alias
of the first non-folded element of the players array). -/
def creditFirstWhere (q : Player → Bool) (amount : Int) :
    List Player → List Player
  | [] => []
  | p :: ps =>
    if q p then { p with chips := p.chips + amount } :: ps
    else p :: creditFirstWhere q amount ps

/-- The unwrapping of a player's hole cards into real cards; `none` models
the crash the source would hit on a `null` hole card at showdown. -/
def seqCards : List (Option Card) → Option (List Card)
  | [] => some []
  | none :: _ => none
  | some c :: rest => (seqCards rest).map (fun cs => c :: cs)

/-- The settlement loop of the showdown branch of `endHand`: walk the
winners in evaluation order, credit each one found among the players
(`splitAmount` plus the remainder for the winner at index 0), and record the
`WinnerInfo` rows. -/
def settleWinners (splitAmount remainder : Int) (isFirst : Bool) :
    List Player → List PlayerWin → List Player × List WinnerInfo
  | players, [] => (players, [])
  | players, w :: ws =>
    match players.findIdx? (fun p => p.id == w.playerId) with
    | some j =>
      let amount := if isFirst then splitAmount + remainder else splitAmount
      let players₁ := updAt players j (fun p => { p with chips := p.chips + amount })
      let (players₂, infos) := settleWinners splitAmount remainder false players₁ ws
      (players₂, ⟨w.playerId, 0, amount, w.hand⟩ :: infos)
    | none =>
      let (players₂, infos) := settleWinners splitAmount remainder false players ws
      (players₂, ⟨w.playerId, 0, splitAmount, w.hand⟩ :: infos)

/-- The common epilogue of `endHand`: the phase becomes `ended` and every
turn flag is cleared. -/
def endHandFinish (s : GameState) (deck : List Card) :
    Option (GameState × List Card) :=
  some ({ s with
           phase := Phase.ended,
           players := s.players.map (fun p => { p with isTurn := false }) },
        deck)

/-- `endHand` from the GameEngine; `none` models a crash or divergence
(an exhausted deck, an evaluator exception, a `null` hole card). -/
def endHand (s : GameState) (deck : List Card) : Option (GameState × List Card) :=
  let activePlayers := s.players.filter (fun p => !p.folded)
  match activePlayers with
  | [winner] =>
    let totalPot := sumPots s
    let s₁ := { s with
      players := creditFirstWhere (fun p => !p.folded) totalPot s.players,
      winners := some [⟨winner.id, 0, totalPot, foldWinHand⟩] }
    endHandFinish s₁ deck
  | _ =>
    match endHandDealLoop deck.length s.communityCards deck with
    | none => none
    | some (comm, deck₁) =>
      let s₁ := { s with communityCards := comm, phase := Phase.showdown }
      match mapOpt (fun p =>
          (seqCards p.cards).map (fun cs => PlayerHand.mk p.id cs comm)) activePlayers with
      | none => none
      | some playerHands =>
        match findWinners playerHands with
        | none => none
        | some winners =>
          let totalPot := sumPots s
          let splitAmount := Int.fdiv totalPot (winners.length : Int)
          let remainder := Int.tmod totalPot (winners.length : Int)
          let settled := settleWinners splitAmount remainder true s₁.players winners
          endHandFinish { s₁ with players := settled.1, winners := some settled.2 } deck₁

/-- `advancePhase` from the GameEngine. -/
def advancePhase (s : GameState) (deck : List Card) :
    Option (GameState × List Card) :=
  let s₁ := { s with
    players := s.players.map (fun p => { p with bet := 0, hasActedThisRound := false }),
    currentBet := 0 }
  let s₂ := calculateSidePots s₁
  let afterDeal := fun (s₃ : GameState) (deck₁ : List Card) =>
    if shouldGoToShowdown s₃ then
      match dealRemainingCards s₃ deck₁ with
      | none => none
      | some (s₄, deck₂) => endHand s₄ deck₂
    else
      some (setCurrentPlayerTurn
        { s₃ with currentPlayerIndex := findNextActivePlayer s₃.players s₃.dealerIndex },
        deck₁)
  match s₂.phase with
  | Phase.preflop =>
    let (s₃, deck₁) := dealCommunityCards { s₂ with phase := Phase.flop } deck 3
    afterDeal s₃ deck₁
  | Phase.flop =>
    let (s₃, deck₁) := dealCommunityCards { s₂ with phase := Phase.turn } deck 1
    afterDeal s₃ deck₁
  | Phase.turn =>
    let (s₃, deck₁) := dealCommunityCards { s₂ with phase := Phase.river } deck 1
    afterDeal s₃ deck₁
  | Phase.river => endHand { s₂ with phase := Phase.showdown } deck
  | _ => afterDeal s₂ deck

/-- One step of the acted-flag reset loop of `processAction`: a non-folded,
non-all-in player other than the actor loses the acted-this-street flag. -/
def resetFlag (playerId : String) (q : Player) : Player :=
  if !(q.id == playerId) && !q.folded && !q.isAllIn then
    { q with hasActedThisRound := false }
  else q

/-- The reset of the other players' acted-this-street flags performed by the
raise and all-in branches of `processAction`. -/
def resetOthersActed (s : GameState) (playerId : String) : GameState :=
  { s with players := s.players.map (resetFlag playerId) }

/-- The tail of `processAction` shared by all successful branches: mark the
actor acted, record the action with the phase it occurred in, then finish
the hand, advance the phase, or pass the turn. -/
def processActionFinish (s : GameState) (deck : List Card) (i : Nat)
    (playerId : String) (action : PlayerAction) (amount : Option Int) :
    Option (Bool × GameState × List Card) :=
  let s₁ :=
    { s with players := updAt s.players i (fun p => { p with hasActedThisRound := true }) }
  let s₂ := { s₁ with lastAction := some ⟨playerId, action, amount, s₁.phase⟩ }
  if isHandOver s₂ then
    (endHand s₂ deck).map (fun r => (true, r.1, r.2))
  else if isBettingRoundOver s₂ then
    (advancePhase s₂ deck).map (fun r => (true, r.1, r.2))
  else
    some (true, advanceToNextPlayer s₂, deck)

/-- `processAction` from the GameEngine.  The result is `some (false, ..)`
with the state untouched on a rejected request, `some (true, ..)` with the
successor state on an accepted one, and `none` when the source would crash
or diverge further down (never on a rejection). -/
def processAction (s : GameState) (deck : List Card) (playerId : String)
    (action : PlayerAction) (amount : Option Int) :
    Option (Bool × GameState × List Card) :=
  match s.players.findIdx? (fun p => p.id == playerId) with
  | none => some (false, s, deck)
  | some i =>
    match s.players[i]? with
    | none => some (false, s, deck)
    | some player =>
      if !player.isTurn || player.folded then some (false, s, deck)
      else if !((getValidActions s playerId).contains action) then
        some (false, s, deck)
      else
        match action with
        | .fold => processActionFinish (handleFold s i player) deck i playerId action amount
        | .check =>
          if !canCheck player s then some (false, s, deck)
          else processActionFinish (handleCheck s i player) deck i playerId action amount
        | .call =>
          match handleCall s i player with
          | none => none
          | some s₁ => processActionFinish s₁ deck i playerId action amount
        | .raise =>
          match amount with
          | none => some (false, s, deck)
          | some a =>
            if !canRaise player s (some a) then some (false, s, deck)
            else
              match handleRaise s i player a with
              | none => none
              | some s₁ =>
                processActionFinish (resetOthersActed s₁ playerId) deck i
                  playerId action amount
        | .allIn =>
          let prevBet := s.currentBet
          match handleAllIn s i player with
          | none => none
          | some s₁ =>
            let s₂ := if prevBet < s₁.currentBet then resetOthersActed s₁ playerId
                      else s₁
            processActionFinish s₂ deck i playerId action amount

/-- `resetForNextHand` from the GameEngine: drop every player whose stack is
empty unless they are disconnected, and return to the waiting phase. -/
def resetForNextHand (s : GameState) : GameState :=
  { s with
    players := s.players.filter (fun p => decide (0 < p.chips) || !p.isConnected),
    phase := Phase.waiting }

end GameEngine

/-! ## Concrete sample states used by counterexamples and witnesses -/

/-- A neutral player record; individual scenarios override the relevant
fields. -/
def samplePlayer : Player :=
  { id := "X", name := "X", avatar := none, chips := 0, cards := [],
    bet := 0, totalBet := 0, folded := false, isAllIn := false,
    isActive := true, isTurn := false, isDealer := false,
    isSmallBlind := false, isBigBlind := false, seatIndex := 0,
    isConnected := true, hasActedThisRound := false, joinedMidGame := false }

/-- A neutral game state; individual scenarios override the relevant
fields. -/
def sampleState : GameState :=
  { phase := Phase.preflop, players := [], communityCards := [],
    pots := [⟨0, []⟩], currentBet := 0, minRaise := 20, dealerIndex := 0,
    currentPlayerIndex := 0, smallBlind := 10, bigBlind := 20,
    lastAction := none, winners := none }

/-! ## Claim C2 -/

/-- Six cards of mixed suits with ranks A, 2, 3, 4, 5, 6. -/
def c2Cards : List Card :=
  [⟨.hearts, .rA⟩, ⟨.clubs, .r2⟩, ⟨.diamonds, .r3⟩,
   ⟨.spades, .r4⟩, ⟨.hearts, .r5⟩, ⟨.clubs, .r6⟩]

/-- Claim C2 (code bug, evaluation at the failing input): on a card set
containing the run 2-3-4-5-6 (a 6-high straight) together with an ace, the
straight detection returns 5 — the wheel — rather than the highest run's
high card 6, because the wheel test precedes the search for higher runs. -/
theorem c2_straight_not_maximal :
    getStraightHighCard c2Cards = some 5 ∧
    (∀ v ∈ [(6 : Int), 5, 4, 3, 2], ∃ c ∈ c2Cards, getRankValue c.rank = v) ∧
    getStraightHighCard c2Cards ≠ some 6 := by decide

/-! ## Claim C4 -/

/-- A state with one folded player, one all-in player, and a single still
live player who has not matched the current bet. -/
def c4State : GameState :=
  { sampleState with
    phase := Phase.flop,
    players := [
      { samplePlayer with id := "F", folded := true },
      { samplePlayer with
        id := "AI", bet := 50, totalBet := 50,
        isAllIn := true, hasActedThisRound := true },
      { samplePlayer with
        id := "P", chips := 100, bet := 20, totalBet := 20,
        isTurn := true }],
    pots := [⟨90, ["AI", "P"]⟩],
    currentBet := 50, currentPlayerIndex := 2 }

/-- Claim C4 counterexample: in `c4State` there is at most one non-folded,
non-all-in player (so the claim calls the street over), yet
`isBettingRoundOver` is false because that player has neither acted nor
matched the current bet. -/
theorem c4_counterexample :
    (c4State.players.filter (fun p => !p.folded && !p.isAllIn)).length ≤ 1 ∧
    GameEngine.isBettingRoundOver c4State = false := by decide

/-- Claim C4 (amended): the betting street is over exactly when every
non-folded, non-all-in player has both acted this street and matched the
current bet (vacuously so when no such player remains); the "at most one
non-folded player who is not all-in" disjunct does not by itself end the
street. -/
theorem c4_round_over_iff (s : GameState) :
    GameEngine.isBettingRoundOver s = true ↔
      ∀ p ∈ s.players, p.folded = false → p.isAllIn = false →
        p.hasActedThisRound = true ∧ p.bet = s.currentBet := by
  by_cases hlen : (s.players.filter (fun p => !p.folded && !p.isAllIn)).length = 0
  · rw [List.length_eq_zero] at hlen
    constructor
    · intro _ p hp hf ha
      have hmem : p ∈ s.players.filter (fun p => !p.folded && !p.isAllIn) := by
        simp [List.mem_filter, hp, hf, ha]
      simp [hlen] at hmem
    · intro _
      simp [GameEngine.isBettingRoundOver, hlen]
  · constructor
    · intro h p hp hf ha
      simp only [GameEngine.isBettingRoundOver, if_neg hlen, List.all_eq_true] at h
      have := h p (by simp [List.mem_filter, hp, hf, ha])
      simpa using this
    · intro h
      simp only [GameEngine.isBettingRoundOver, if_neg hlen, List.all_eq_true]
      intro p hp
      rw [List.mem_filter] at hp
      obtain ⟨hmem, hcond⟩ := hp
      simp only [Bool.and_eq_true, Bool.not_eq_true'] at hcond
      have := h p hmem hcond.1 hcond.2
      simp [this.1, this.2]

/-! ## Claim C8 -/

/-- A connected player who has busted. -/
def c8BustedConnected : Player :=
  { samplePlayer with id := "bustConn", chips := 0, isConnected := true }

/-- A disconnected player who has busted. -/
def c8BustedDisconnected : Player :=
  { samplePlayer with id := "bustDisc", chips := 0, isConnected := false }

/-- A roster holding both kinds of busted player. -/
def c8State : GameState :=
  { sampleState with
    phase := Phase.ended,
    players := [c8BustedConnected, c8BustedDisconnected] }

/-- Claim C8 counterexample: the connected player with zero chips — whom the
claim says is kept — is removed by `resetForNextHand`, while the
disconnected player with zero chips is kept. -/
theorem c8_counterexample :
    (GameEngine.resetForNextHand c8State).players = [c8BustedDisconnected] ∧
    c8BustedConnected ∈ c8State.players ∧
    c8BustedConnected.chips = 0 ∧ c8BustedConnected.isConnected = true ∧
    c8BustedConnected ∉ (GameEngine.resetForNextHand c8State).players := by decide

/-- Claim C8 (amended): `resetForNextHand` removes exactly the players with
zero (or negative) chips that are still connected; a player with zero chips
who has disconnected is kept; and the phase becomes waiting. -/
theorem c8_reset_spec (s : GameState) :
    (GameEngine.resetForNextHand s).phase = Phase.waiting ∧
    ∀ p, p ∈ (GameEngine.resetForNextHand s).players ↔
      p ∈ s.players ∧ (0 < p.chips ∨ p.isConnected = false) := by
  unfold GameEngine.resetForNextHand
  refine ⟨rfl, fun p => ?_⟩
  simp [List.mem_filter, Bool.or_eq_true, Bool.not_eq_true', decide_eq_true_eq]

/-! ## Claim C10 -/

/-- Claim C10 (confirmed): posting a blind deducts and adds to the pot
exactly `min nominal chips`, never drives the stack negative, and marks a
player whose stack hits exactly zero as all-in. -/
theorem c10_post_blind (s : GameState) (i : Nat) (a : Int) (sb : Bool)
    (p : Player) (pot0 : Pot) (rest : List Pot)
    (hp : s.players[i]? = some p) (hf : p.folded = false)
    (hpots : s.pots = pot0 :: rest) :
    ∃ s₁, GameEngine.postBlind s i a sb = some s₁ ∧
      s₁.players[i]?.map (·.chips) = some (p.chips - min a p.chips) ∧
      s₁.players[i]?.map (·.bet) = some (min a p.chips) ∧
      sumPots s₁ = sumPots s + min a p.chips ∧
      0 ≤ p.chips - min a p.chips + max 0 (-p.chips) ∧
      (0 ≤ p.chips → 0 ≤ p.chips - min a p.chips) ∧
      (p.chips - min a p.chips = 0 →
        s₁.players[i]?.map (·.isAllIn) = some true) := by
  have hlen : i < s.players.length := by
    by_contra hge
    rw [List.getElem?_eq_none (by omega)] at hp
    exact Option.noConfusion hp
  simp only [GameEngine.postBlind, hp, hpots, hf, Bool.false_eq_true, if_false]
  refine ⟨_, rfl, ?_, ?_, ?_, ?_, ?_, ?_⟩
  · rw [List.getElem?_set_self (by omega)]
    split <;> split <;> simp
  · rw [List.getElem?_set_self (by omega)]
    split <;> split <;> simp
  · simp only [sumPots, hpots, List.map_cons, List.sum_cons]
    omega
  · have := min_le_right a p.chips
    rcases le_total 0 p.chips with h | h
    · rw [max_eq_left (by omega)]; omega
    · rw [max_eq_right (by omega)]; omega
  · intro h
    have := min_le_right a p.chips
    omega
  · intro h
    rw [List.getElem?_set_self (by omega)]
    by_cases hsb : sb = true <;> simp [hsb, h]

/-- Claim C10 witness: a 100-chip big blind posted by a player holding 60
chips deducts 60, leaves a zero stack, and marks the player all-in. -/
theorem c10_witness :
    ∃ s₁, GameEngine.postBlind
        { sampleState with players := [{ samplePlayer with id := "B", chips := 60 }] }
        0 100 false = some s₁ ∧
      s₁.players[0]?.map (·.chips) =
        some ((60 : Int) - min 100 60) ∧
      s₁.players[0]?.map (·.bet) = some (min 100 60) ∧
      sumPots s₁ =
        sumPots { sampleState with players := [{ samplePlayer with id := "B", chips := 60 }] }
          + min 100 60 ∧
      0 ≤ (60 : Int) - min 100 60 + max 0 (-(60 : Int)) ∧
      ((0 : Int) ≤ 60 → 0 ≤ (60 : Int) - min 100 60) ∧
      ((60 : Int) - min 100 60 = 0 → s₁.players[0]?.map (·.isAllIn) = some true) :=
  c10_post_blind _ 0 100 false { samplePlayer with id := "B", chips := 60 }
    ⟨0, []⟩ [] (by decide) (by decide) (by decide)

/-! ## Claim C9 -/

/-- Two states that agree on everything except possibly the contents (never
the count) of the hole cards of players other than `pid`. -/
def AgreeExceptOtherHoleCards (pid : String) (s t : GameState) : Prop :=
  s.phase = t.phase ∧ s.communityCards = t.communityCards ∧ s.pots = t.pots ∧
  s.currentBet = t.currentBet ∧ s.minRaise = t.minRaise ∧
  s.dealerIndex = t.dealerIndex ∧ s.currentPlayerIndex = t.currentPlayerIndex ∧
  s.smallBlind = t.smallBlind ∧ s.bigBlind = t.bigBlind ∧
  s.lastAction = t.lastAction ∧ s.winners = t.winners ∧
  List.Forall₂ (fun p q : Player =>
    ({ p with cards := ([] : List (Option Card)) } =
      { q with cards := ([] : List (Option Card)) }) ∧
    p.cards.length = q.cards.length ∧
    (p.id = pid → p.cards = q.cards)) s.players t.players

theorem hideCards_congr (pid : String) (ps qs : List Player)
    (h : List.Forall₂ (fun p q : Player =>
      ({ p with cards := ([] : List (Option Card)) } =
        { q with cards := ([] : List (Option Card)) }) ∧
      p.cards.length = q.cards.length ∧
      (p.id = pid → p.cards = q.cards)) ps qs) :
    ps.map (fun p =>
      if p.id = pid then p else { p with cards := p.cards.map (fun _ => none) }) =
    qs.map (fun q =>
      if q.id = pid then q else { q with cards := q.cards.map (fun _ => none) }) := by
  induction h with
  | nil => rfl
  | cons hpq _ ih =>
    rename_i p q ps₁ qs₁ _
    obtain ⟨hbase, hlen, hcards⟩ := hpq
    simp only [List.map_cons, ih, List.cons.injEq, and_true]
    have hid : p.id = q.id := by
      cases p; cases q; simp_all [Player.mk.injEq]
    by_cases hpid : p.id = pid
    · have : p = q := by
        cases p; cases q; simp_all [Player.mk.injEq]
      simp [hpid, hid ▸ hpid, this]
    · rw [if_neg hpid, if_neg (hid ▸ hpid)]
      have hc : p.cards.map (fun _ => (none : Option Card)) =
          q.cards.map (fun _ => (none : Option Card)) := by
        rw [List.map_const', List.map_const', hlen]
      cases p; cases q; simp_all [Player.mk.injEq]

/-- Claim C9 (confirmed): outside showdown the per-player snapshot blanks
every other player's hole cards to placeholders of the same count, so the
snapshot for `pid` cannot depend on the contents of other players' hole
cards; during showdown the snapshot reveals every hand verbatim. -/
theorem c9_hole_card_confidentiality :
    (∀ pid s t, s.phase ≠ Phase.showdown → AgreeExceptOtherHoleCards pid s t →
      GameEngine.getStateForPlayer s pid = GameEngine.getStateForPlayer t pid) ∧
    (∀ pid s, ((GameEngine.getStateForPlayer s pid).players.map
        (fun p => p.cards.length)) = s.players.map (fun p => p.cards.length)) ∧
    (∀ pid s p, s.phase ≠ Phase.showdown →
      p ∈ (GameEngine.getStateForPlayer s pid).players → p.id ≠ pid →
      ∀ c ∈ p.cards, c = none) ∧
    (∀ pid s, s.phase = Phase.showdown → GameEngine.getStateForPlayer s pid = s) := by
  refine ⟨?_, ?_, ?_, ?_⟩
  · intro pid s t hs hrel
    obtain ⟨h1, h2, h3, h4, h5, h6, h7, h8, h9, h10, h11, h12⟩ := hrel
    have ht : t.phase ≠ Phase.showdown := h1 ▸ hs
    unfold GameEngine.getStateForPlayer
    have hms : s.players.map (fun p =>
        if p.id = pid ∨ s.phase = Phase.showdown then p
        else { p with cards := p.cards.map (fun _ => none) }) =
      s.players.map (fun p =>
        if p.id = pid then p
        else { p with cards := p.cards.map (fun _ => none) }) := by
      apply List.map_congr_left
      intro p _
      simp [hs]
    have hmt : t.players.map (fun p =>
        if p.id = pid ∨ t.phase = Phase.showdown then p
        else { p with cards := p.cards.map (fun _ => none) }) =
      t.players.map (fun p =>
        if p.id = pid then p
        else { p with cards := p.cards.map (fun _ => none) }) := by
      apply List.map_congr_left
      intro p _
      simp [ht]
    cases s; cases t
    simp_all only [GameState.mk.injEq, and_true, true_and]
    exact hideCards_congr pid _ _ h12
  · intro pid s
    unfold GameEngine.getStateForPlayer
    rw [List.map_map]
    apply List.map_congr_left
    intro p _
    by_cases h : p.id = pid ∨ s.phase = Phase.showdown <;> simp [h]
  · intro pid s p hs hp hpid
    unfold GameEngine.getStateForPlayer at hp
    simp only [List.mem_map] at hp
    obtain ⟨q, _, hq⟩ := hp
    by_cases hcond : q.id = pid ∨ s.phase = Phase.showdown
    · rw [if_pos hcond] at hq
      rcases hcond with hcond | hcond
      · exact absurd (hq ▸ hcond) hpid
      · exact absurd hcond hs
    · rw [if_neg hcond] at hq
      intro c hc
      rw [← hq] at hc
      simp only [List.mem_map] at hc
      obtain ⟨_, _, hcc⟩ := hc
      exact hcc.symm
  · intro pid s h
    unfold GameEngine.getStateForPlayer
    cases s
    simp_all

/-- A state in which player P2 holds the deuce of clubs. -/
def c9sState : GameState :=
  { sampleState with
    players := [
      { samplePlayer with id := "P1", cards := [some ⟨.hearts, .rA⟩, some ⟨.spades, .rA⟩] },
      { samplePlayer with id := "P2", cards := [some ⟨.clubs, .r2⟩, some ⟨.clubs, .r3⟩] }] }

/-- The same state except P2 holds the king of diamonds instead. -/
def c9tState : GameState :=
  { sampleState with
    players := [
      { samplePlayer with id := "P1", cards := [some ⟨.hearts, .rA⟩, some ⟨.spades, .rA⟩] },
      { samplePlayer with id := "P2", cards := [some ⟨.diamonds, .rK⟩, some ⟨.diamonds, .rQ⟩] }] }

/-- Claim C9 witness: P1's snapshot is identical in two preflop states that
differ only in P2's hole cards. -/
theorem c9_witness :
    GameEngine.getStateForPlayer c9sState "P1" =
      GameEngine.getStateForPlayer c9tState "P1" :=
  c9_hole_card_confidentiality.1 "P1" c9sState c9tState (by decide)
    (by refine ⟨rfl, rfl, rfl, rfl, rfl, rfl, rfl, rfl, rfl, rfl, rfl, ?_⟩
        simp only [c9sState, c9tState, List.forall₂_cons, List.Forall₂.nil]
        refine ⟨⟨by decide, by decide, by decide⟩, ⟨by decide, by decide, by decide⟩, trivial⟩)

/-! ## Claim C7 -/

/-- Claim C7 (confirmed): for the player found by id, `getValidActions` is
empty when the player is folded or all-in; otherwise it always contains
fold, contains check exactly when the street bet matches the current bet
(street bets never exceed the current bet in play, hypothesis `hbet`),
contains call exactly when the street bet is below the current bet and the
player has chips, contains raise exactly when the remaining chips cover at
least the minimum raise increment above the current bet, and contains
all-in exactly when the player has any chips. -/
theorem c7_valid_actions (s : GameState) (pid : String) (p : Player)
    (hfind : s.players.find? (fun q => q.id == pid) = some p) :
    (p.folded = true ∨ p.isAllIn = true → GameEngine.getValidActions s pid = []) ∧
    (p.folded = false → p.isAllIn = false → p.bet ≤ s.currentBet →
      PlayerAction.fold ∈ GameEngine.getValidActions s pid ∧
      (PlayerAction.check ∈ GameEngine.getValidActions s pid ↔
        p.bet = s.currentBet) ∧
      (PlayerAction.call ∈ GameEngine.getValidActions s pid ↔
        p.bet < s.currentBet ∧ 0 < p.chips) ∧
      (PlayerAction.raise ∈ GameEngine.getValidActions s pid ↔
        s.minRaise ≤ p.chips + p.bet - s.currentBet) ∧
      (PlayerAction.allIn ∈ GameEngine.getValidActions s pid ↔ 0 < p.chips)) := by
  constructor
  · intro h
    unfold GameEngine.getValidActions
    rw [hfind]
    rcases h with h | h <;> simp [h]
  · intro hf ha hbet
    unfold GameEngine.getValidActions
    rw [hfind]
    simp only [hf, ha, Bool.or_self, Bool.false_eq_true, if_false]
    split_ifs with h1 h2 h3 h4 <;>
      simp_all [GameEngine.canCheck, GameEngine.canCall, GameEngine.canRaise] <;>
      omega

/-- A state whose single player faces a 20-chip current bet holding 100
chips. -/
def c7State : GameState :=
  { sampleState with
    players := [{ samplePlayer with id := "A", chips := 100, isTurn := true }],
    currentBet := 20 }

/-- The player of `c7State`. -/
def c7Player : Player := { samplePlayer with id := "A", chips := 100, isTurn := true }

/-- Claim C7 witness: in `c7State` the player may fold, call, raise and go
all-in but not check. -/
theorem c7_witness :
    PlayerAction.fold ∈ GameEngine.getValidActions c7State "A" ∧
    (PlayerAction.check ∈ GameEngine.getValidActions c7State "A" ↔
      c7Player.bet = c7State.currentBet) ∧
    (PlayerAction.call ∈ GameEngine.getValidActions c7State "A" ↔
      c7Player.bet < c7State.currentBet ∧ 0 < c7Player.chips) ∧
    (PlayerAction.raise ∈ GameEngine.getValidActions c7State "A" ↔
      c7State.minRaise ≤ c7Player.chips + c7Player.bet - c7State.currentBet) ∧
    (PlayerAction.allIn ∈ GameEngine.getValidActions c7State "A" ↔
      0 < c7Player.chips) :=
  (c7_valid_actions c7State "A" c7Player (by decide)).2 (by decide) (by decide)
    (by decide)

/-! ## Claim C5 -/

/-- Claim C5 (confirmed): every illegal request — unknown player, acting out
of turn, acting while folded, an action outside the currently legal set, or
a raise whose increment is missing or outside the legal window — makes
`processAction` return `false` with the state and deck untouched; no
rejection path throws (`none`) or mutates. -/
theorem c5_rejection_atomicity :
    (∀ (s : GameState) (deck : List Card) (pid : String) (act : PlayerAction)
        (amt : Option Int),
      s.players.findIdx? (fun p => p.id == pid) = none →
      GameEngine.processAction s deck pid act amt = some (false, s, deck)) ∧
    (∀ (s : GameState) (deck : List Card) (pid : String) (act : PlayerAction)
        (amt : Option Int) (i : Nat) (p : Player),
      s.players.findIdx? (fun p => p.id == pid) = some i →
      s.players[i]? = some p → (p.isTurn = false ∨ p.folded = true) →
      GameEngine.processAction s deck pid act amt = some (false, s, deck)) ∧
    (∀ (s : GameState) (deck : List Card) (pid : String) (act : PlayerAction)
        (amt : Option Int),
      act ∉ GameEngine.getValidActions s pid →
      GameEngine.processAction s deck pid act amt = some (false, s, deck)) ∧
    (∀ (s : GameState) (deck : List Card) (pid : String) (amt : Option Int)
        (i : Nat) (p : Player),
      s.players.findIdx? (fun p => p.id == pid) = some i →
      s.players[i]? = some p →
      (amt = none ∨ ∃ a, amt = some a ∧ GameEngine.canRaise p s (some a) = false) →
      GameEngine.processAction s deck pid PlayerAction.raise amt =
        some (false, s, deck)) := by
  refine ⟨?_, ?_, ?_, ?_⟩
  · intro s deck pid act amt h
    unfold GameEngine.processAction
    rw [h]
  · intro s deck pid act amt i p hidx hget h
    unfold GameEngine.processAction
    simp only [hidx, hget]
    have hpf : (!p.isTurn || p.folded) = true := by
      rcases h with h | h <;> simp [h]
    rw [if_pos hpf]
  · intro s deck pid act amt hmem
    unfold GameEngine.processAction
    split
    · rfl
    · split
      · rfl
      · split
        · rfl
        · split
          · rfl
          · rename_i hcond
            have hc : act ∈ GameEngine.getValidActions s pid := by simpa using hcond
            exact absurd hc hmem
  · intro s deck pid amt i p hidx hget hbad
    unfold GameEngine.processAction
    simp only [hidx, hget]
    split
    · rfl
    · split
      · rfl
      · rcases hbad with hnone | ⟨a, ha, hcr⟩
        · rw [hnone]
        · rw [ha]
          simp only [hcr, Bool.not_false, if_true]

/-- Claim C5 witness: in `c7State` a request by an unknown player id is
rejected with the state unchanged. -/
theorem c5_witness :
    GameEngine.processAction c7State [] "ZZ" PlayerAction.fold none =
      some (false, c7State, []) :=
  c5_rejection_atomicity.1 c7State [] "ZZ" PlayerAction.fold none (by decide)

/-! ## Claim C6 -/

theorem mapOpt_length {f : α → Option β} :
    ∀ {l : List α} {r : List β}, mapOpt f l = some r → r.length = l.length := by
  intro l
  induction l with
  | nil => intro r h; simp only [mapOpt, Option.some.injEq] at h; simp [← h]
  | cons a l ih =>
    intro r h
    simp only [mapOpt] at h
    cases hfa : f a with
    | none => rw [hfa] at h; simp at h
    | some b =>
      rw [hfa] at h
      cases hml : mapOpt f l with
      | none => rw [hml] at h; simp at h
      | some r₁ =>
        rw [hml] at h
        simp only [Option.some.injEq] at h
        subst h
        simp [ih hml]

theorem mapOpt_map_eq {f : α → Option β} {g : β → γ} {k : α → γ}
    (hfg : ∀ a b, f a = some b → g b = k a) :
    ∀ {l : List α} {r : List β}, mapOpt f l = some r → r.map g = l.map k := by
  intro l
  induction l with
  | nil => intro r h; simp only [mapOpt, Option.some.injEq] at h; simp [← h]
  | cons a l ih =>
    intro r h
    simp only [mapOpt] at h
    cases hfa : f a with
    | none => rw [hfa] at h; simp at h
    | some b =>
      rw [hfa] at h
      cases hml : mapOpt f l with
      | none => rw [hml] at h; simp at h
      | some r₁ =>
        rw [hml] at h
        simp only [Option.some.injEq] at h
        subst h
        simp [hfg a b hfa, ih hml]

theorem compareKickers_self : ∀ ks : List Int, compareKickers ks ks = 0
  | [] => rfl
  | k :: t => by
    simp only [compareKickers, ne_eq, not_true_eq_false, if_neg]
    simpa using compareKickers_self t

theorem compareHands_self (h : HandResult) : compareHands h h = 0 := by
  simp [compareHands, compareKickers_self]

/-- `findWinners` returns ids drawn from its input. -/
theorem findWinners_ids {phs : List PlayerHand} {ws : List PlayerWin}
    (h : findWinners phs = some ws) :
    ∀ w ∈ ws, w.playerId ∈ phs.map (·.playerId) := by
  intro w hw
  unfold findWinners at h
  cases hres : mapOpt (fun ph =>
      (evaluateHand (ph.cards ++ ph.communityCards)).map
        (fun hd => PlayerWin.mk ph.playerId hd)) phs with
  | none => rw [hres] at h; exact absurd h (by simp)
  | some results =>
    simp only [hres] at h
    have hids : results.map (·.playerId) = phs.map (·.playerId) :=
      mapOpt_map_eq (by
        intro a b hab
        cases hev : evaluateHand (a.cards ++ a.communityCards) with
        | none => rw [hev] at hab; simp at hab
        | some hd => rw [hev] at hab; simp only [Option.map_some', Option.some.injEq] at hab; simp [← hab])
        hres
    have hmem : w ∈ results := by
      cases hsorted : sortWith (fun a b => compareHands b.hand a.hand) results with
      | nil => rw [hsorted] at h; simp only [Option.some.injEq] at h; subst h; simp at hw
      | cons best rest =>
        rw [hsorted] at h
        simp only [Option.some.injEq] at h
        subst h
        have hws : w ∈ sortWith (fun a b => compareHands b.hand a.hand) results := by
          rw [hsorted]
          exact List.mem_of_mem_filter hw
        exact (sortWith_perm _ results).mem_iff.mp hws
    rw [← hids]
    exact List.mem_map_of_mem _ hmem

/-- `findWinners` on a non-empty input returns a non-empty winner list. -/
theorem findWinners_ne_nil {phs : List PlayerHand} {ws : List PlayerWin}
    (h : findWinners phs = some ws) (hne : phs ≠ []) : ws ≠ [] := by
  unfold findWinners at h
  cases hres : mapOpt (fun ph =>
      (evaluateHand (ph.cards ++ ph.communityCards)).map
        (fun hd => PlayerWin.mk ph.playerId hd)) phs with
  | none => rw [hres] at h; exact absurd h (by simp)
  | some results =>
    simp only [hres] at h
    have hrlen : results.length = phs.length := mapOpt_length hres
    cases hsorted : sortWith (fun a b => compareHands b.hand a.hand) results with
    | nil =>
      have hplen := (sortWith_perm (fun a b => compareHands b.hand a.hand) results).length_eq
      rw [hsorted] at hplen
      simp only [List.length_nil] at hplen
      have hrnil : results = [] := List.length_eq_zero.mp hplen.symm
      rw [hrnil] at hrlen
      simp only [List.length_nil] at hrlen
      exact absurd (List.length_eq_zero.mp hrlen.symm) hne
    | cons best rest =>
      rw [hsorted] at h
      simp only [Option.some.injEq] at h
      subst h
      intro hnil
      have hbest : best ∈ (best :: rest).filter
          (fun r => decide (compareHands r.hand best.hand = 0)) := by
        simp [List.mem_filter, compareHands_self]
      rw [hnil] at hbest
      simp at hbest

theorem settleWinners_amounts_false (split rem : Int) :
    ∀ (ws : List PlayerWin) (players : List Player),
      ((GameEngine.settleWinners split rem false players ws).2.map (·.amount)) =
        List.replicate ws.length split := by
  intro ws
  induction ws with
  | nil => intro players; rfl
  | cons w t ih =>
    intro players
    unfold GameEngine.settleWinners
    cases hidx : players.findIdx? (fun p => p.id == w.playerId) with
    | some j => simp [hidx, ih, List.replicate_succ]
    | none => simp [hidx, ih, List.replicate_succ]

theorem settleWinners_amounts_true (split rem : Int) (players : List Player)
    (w : PlayerWin) (t : List PlayerWin) (j : Nat)
    (hfound : players.findIdx? (fun p => p.id == w.playerId) = some j) :
    ((GameEngine.settleWinners split rem true players (w :: t)).2.map (·.amount)) =
      (split + rem) :: List.replicate t.length split := by
  unfold GameEngine.settleWinners
  simp [hfound, settleWinners_amounts_false]

/-- Claim C6 (confirmed): at a showdown settlement (at least two non-folded
players) with pot total `T` and `k` recorded co-winners, the first winner in
evaluation order is credited `⌊T/k⌋ + T mod k` and every other winner
`⌊T/k⌋`, and the recorded credits sum to exactly `T`. -/
theorem c6_showdown_split (s : GameState) (deck : List Card)
    (r : GameState × List Card)
    (hactive : 2 ≤ (s.players.filter (fun p => !p.folded)).length)
    (hT : 0 ≤ sumPots s)
    (hend : GameEngine.endHand s deck = some r) :
    ∃ ws, r.1.winners = some ws ∧ ws ≠ [] ∧
      ws.head?.map (·.amount) =
        some (Int.fdiv (sumPots s) (ws.length : Int) +
          Int.tmod (sumPots s) (ws.length : Int)) ∧
      (∀ w ∈ ws.tail, w.amount = Int.fdiv (sumPots s) (ws.length : Int)) ∧
      (ws.map (·.amount)).sum = sumPots s := by
  unfold GameEngine.endHand at hend
  cases hact : s.players.filter (fun p => !p.folded) with
  | nil => rw [hact] at hactive; simp at hactive
  | cons p1 rest =>
  cases rest with
  | nil => rw [hact] at hactive; simp at hactive
  | cons p2 rest2 =>
  simp only [hact] at hend
  rw [← hact] at hend
  · cases hdeal : GameEngine.endHandDealLoop deck.length s.communityCards deck with
    | none => rw [hdeal] at hend; exact Option.noConfusion hend
    | some cd =>
      obtain ⟨comm, deck₁⟩ := cd
      simp only [hdeal] at hend
      cases hmap : mapOpt (fun p => (GameEngine.seqCards p.cards).map
          (fun cs => PlayerHand.mk p.id cs comm))
          (s.players.filter (fun p => !p.folded)) with
      | none => rw [hmap] at hend; exact Option.noConfusion hend
      | some playerHands =>
        simp only [hmap] at hend
        cases hwin : findWinners playerHands with
        | none => rw [hwin] at hend; exact Option.noConfusion hend
        | some winners =>
          simp only [hwin] at hend
          unfold GameEngine.endHandFinish at hend
          simp only [Option.some.injEq] at hend
          subst hend
          -- the winners list is non-empty
          have hphlen : playerHands.length =
              (s.players.filter (fun p => !p.folded)).length := mapOpt_length hmap
          have hphne : playerHands ≠ [] := by
            intro hnil
            rw [hnil] at hphlen
            simp only [List.length_nil] at hphlen
            omega
          have hwne : winners ≠ [] := findWinners_ne_nil hwin hphne
          obtain ⟨w₁, t, hw⟩ := List.exists_cons_of_ne_nil hwne
          -- the first winner's id occurs among the players
          have hids : playerHands.map (·.playerId) =
              (s.players.filter (fun p => !p.folded)).map (·.id) :=
            mapOpt_map_eq (by
              intro a b hab
              cases hsq : GameEngine.seqCards a.cards with
              | none => rw [hsq] at hab; simp at hab
              | some cs => rw [hsq] at hab; simp only [Option.map_some', Option.some.injEq] at hab; simp [← hab])
              hmap
          have hmem1 : w₁.playerId ∈ s.players.map (·.id) := by
            have h1 : w₁.playerId ∈ playerHands.map (·.playerId) :=
              findWinners_ids hwin w₁ (hw ▸ List.mem_cons_self w₁ t)
            rw [hids] at h1
            obtain ⟨q, hq, hqid⟩ := List.mem_map.mp h1
            exact List.mem_map.mpr ⟨q, List.mem_of_mem_filter hq, hqid⟩
          have hfound : s.players.findIdx? (fun p => p.id == w₁.playerId) ≠ none := by
            rw [Ne, List.findIdx?_eq_none_iff]
            push_neg
            obtain ⟨q, hq, hqid⟩ := List.mem_map.mp hmem1
            exact ⟨q, hq, by simp [hqid]⟩
          obtain ⟨j, hj⟩ := Option.ne_none_iff_exists'.mp hfound
          -- the recorded amounts
          have hamounts :
              ((GameEngine.settleWinners (Int.fdiv (sumPots s) (winners.length : Int))
                  (Int.tmod (sumPots s) (winners.length : Int)) true
                  s.players winners).2.map (·.amount)) =
                (Int.fdiv (sumPots s) (winners.length : Int) +
                    Int.tmod (sumPots s) (winners.length : Int)) ::
                  List.replicate t.length (Int.fdiv (sumPots s) (winners.length : Int)) := by
            rw [hw]
            exact settleWinners_amounts_true _ _ _ _ _ j hj
          refine ⟨_, rfl, ?_, ?_, ?_, ?_⟩
          · intro hnil
            rw [hnil] at hamounts
            simp at hamounts
          · have hlen : ((GameEngine.settleWinners (Int.fdiv (sumPots s) (winners.length : Int))
                (Int.tmod (sumPots s) (winners.length : Int)) true
                s.players winners).2).length = winners.length := by
              have := congrArg List.length hamounts
              simpa [hw] using this
            rw [← List.head?_map, hamounts, hlen]
            rfl
          · intro w hwtl
            have hlen : ((GameEngine.settleWinners (Int.fdiv (sumPots s) (winners.length : Int))
                (Int.tmod (sumPots s) (winners.length : Int)) true
                s.players winners).2).length = winners.length := by
              have := congrArg List.length hamounts
              simpa [hw] using this
            have hmemtl : w.amount ∈ ((GameEngine.settleWinners
                (Int.fdiv (sumPots s) (winners.length : Int))
                (Int.tmod (sumPots s) (winners.length : Int)) true
                s.players winners).2.tail.map (·.amount)) :=
              List.mem_map_of_mem _ hwtl
            rw [List.map_tail, hamounts] at hmemtl
            simp only [List.tail_cons] at hmemtl
            rcases List.mem_replicate.mp hmemtl with ⟨_, heq⟩
            rw [hlen, heq]
          · have hlen : ((GameEngine.settleWinners (Int.fdiv (sumPots s) (winners.length : Int))
                (Int.tmod (sumPots s) (winners.length : Int)) true
                s.players winners).2).length = winners.length := by
              have := congrArg List.length hamounts
              simpa [hw] using this
            rw [hamounts, List.sum_cons, List.sum_replicate, nsmul_eq_mul]
            have hk : (0 : Int) < (winners.length : Int) := by
              rw [hw]; exact_mod_cast Nat.succ_pos t.length
            have hfd : Int.fdiv (sumPots s) (winners.length : Int) =
                sumPots s / (winners.length : Int) :=
              Int.fdiv_eq_ediv _ (by omega)
            have htm : Int.tmod (sumPots s) (winners.length : Int) =
                sumPots s % (winners.length : Int) :=
              Int.tmod_eq_emod hT (by omega)
            rw [hfd, htm]
            have hwl : ((winners.length : Int)) = (t.length : Int) + 1 := by
              rw [hw]; simp
            have := Int.ediv_add_emod (sumPots s) (winners.length : Int)
            rw [hwl] at this ⊢
            linarith [this]

/-- A river board both showdown players play in full: an ace-high straight
on the board. -/
def c6Board : List Card :=
  [⟨.spades, .rA⟩, ⟨.hearts, .rK⟩, ⟨.diamonds, .rQ⟩, ⟨.clubs, .rJ⟩, ⟨.spades, .r10⟩]

/-- A two-player showdown over a 101-chip pot in which both hands tie. -/
def c6State : GameState :=
  { sampleState with
    phase := Phase.river,
    players := [
      { samplePlayer with
        id := "P1", chips := 40,
        cards := [some ⟨.hearts, .r2⟩, some ⟨.diamonds, .r3⟩] },
      { samplePlayer with
        id := "P2", chips := 60,
        cards := [some ⟨.clubs, .r2⟩, some ⟨.spades, .r3⟩] }],
    communityCards := c6Board,
    pots := [⟨101, ["P1", "P2"]⟩] }

/-- The settled state of `c6State`. -/
def c6Result : GameState × List Card :=
  (GameEngine.endHand c6State []).getD (c6State, [])

/-- Claim C6 witness: the tied 101-chip pot of `c6State` is recorded as a
51/50 split with the odd chip going to the first evaluated winner. -/
theorem c6_witness :
    ∃ ws, c6Result.1.winners = some ws ∧ ws ≠ [] ∧
      ws.head?.map (·.amount) =
        some (Int.fdiv (sumPots c6State) (ws.length : Int) +
          Int.tmod (sumPots c6State) (ws.length : Int)) ∧
      (∀ w ∈ ws.tail, w.amount = Int.fdiv (sumPots c6State) (ws.length : Int)) ∧
      (ws.map (·.amount)).sum = sumPots c6State :=
  c6_showdown_split c6State [] c6Result (by decide) (by decide) (by decide)

/-! ## Claim C1 -/

/-- A 3-player preflop state in which player A faces a 20-chip bet. -/
def c1State : GameState :=
  { sampleState with
    players := [
      { samplePlayer with id := "A", chips := 100, isTurn := true },
      { samplePlayer with
        id := "B", chips := 80, bet := 20, totalBet := 20,
        hasActedThisRound := true },
      { samplePlayer with id := "C", chips := 100, bet := 20, totalBet := 20 }],
    pots := [⟨40, ["A", "B", "C"]⟩],
    currentBet := 20 }

/-- The result of player A legally calling in `c1State`. -/
def c1Result : Bool × GameState × List Card :=
  (GameEngine.processAction c1State [] "A" PlayerAction.call none).getD
    (false, c1State, [])

/-- Claim C1 counterexample: a legal call changes
`Σ chips + Σ street-bets + Σ pot amounts`, because the engine moves the call
amount into the pot immediately while the street bet also still records it;
the claimed quantity double-counts street bets. -/
theorem c1_counterexample :
    (GameEngine.processAction c1State [] "A" PlayerAction.call none).isSome = true ∧
    c1Result.1 = true ∧
    sumChips c1Result.2.1 + sumBets c1Result.2.1 + sumPots c1Result.2.1 ≠
      sumChips c1State + sumBets c1State + sumPots c1State := by decide

theorem sum_map_set (l : List Player) (g : Player → Int) :
    ∀ (i : Nat) (p x : Player), l[i]? = some p →
      ((l.set i x).map g).sum = (l.map g).sum - g p + g x := by
  induction l with
  | nil => intro i p x h; simp at h
  | cons a l ih =>
    intro i p x h
    cases i with
    | zero =>
      simp only [List.getElem?_cons_zero, Option.some.injEq] at h
      subst h
      simp only [List.set_cons_zero, List.map_cons, List.sum_cons]
      ring
    | succ n =>
      simp only [List.getElem?_cons_succ] at h
      simp only [List.set_cons_succ, List.map_cons, List.sum_cons, ih n p x h]
      ring

theorem sum_map_updAt_chips (a : Int) :
    ∀ (l : List Player) (j : Nat), j < l.length →
      ((updAt l j (fun p => { p with chips := p.chips + a })).map (·.chips)).sum =
        (l.map (·.chips)).sum + a := by
  intro l
  induction l with
  | nil => intro j h; simp at h
  | cons x xs ih =>
    intro j h
    cases j with
    | zero => simp only [updAt, List.map_cons, List.sum_cons]; ring
    | succ n =>
      simp only [updAt, List.map_cons, List.sum_cons,
        ih n (by simpa using Nat.lt_of_succ_lt_succ h)]
      ring

theorem updAt_map_of_comp (f : Player → Player) (g : Player → α)
    (hfg : ∀ x, g (f x) = g x) :
    ∀ (l : List Player) (i : Nat), (updAt l i f).map g = l.map g := by
  intro l
  induction l with
  | nil => intro i; rfl
  | cons x xs ih =>
    intro i
    cases i with
    | zero => simp [updAt, hfg]
    | succ n => simp [updAt, ih n]

theorem creditFirstWhere_sum (q : Player → Bool) (a : Int) :
    ∀ l : List Player, (∃ x ∈ l, q x = true) →
      (((GameEngine.creditFirstWhere q a l).map (·.chips)).sum =
        (l.map (·.chips)).sum + a) := by
  intro l
  induction l with
  | nil => rintro ⟨x, hx, _⟩; simp at hx
  | cons y ys ih =>
    rintro ⟨x, hx, hq⟩
    by_cases hy : q y = true
    · simp only [GameEngine.creditFirstWhere, hy, if_true, List.map_cons, List.sum_cons]
      ring
    · rcases List.mem_cons.mp hx with rfl | hx₁
      · exact absurd hq hy
      · simp only [GameEngine.creditFirstWhere, hy, if_false, Bool.false_eq_true,
          List.map_cons, List.sum_cons, ih ⟨x, hx₁, hq⟩]
        ring

theorem settleWinners_sumChips (split rem : Int) :
    ∀ (ws : List PlayerWin) (players : List Player) (isFirst : Bool),
      (∀ w ∈ ws, w.playerId ∈ players.map (·.id)) →
      (((GameEngine.settleWinners split rem isFirst players ws).1.map (·.chips)).sum =
        (players.map (·.chips)).sum +
          ((GameEngine.settleWinners split rem isFirst players ws).2.map (·.amount)).sum) := by
  intro ws
  induction ws with
  | nil => intro players isFirst _; simp [GameEngine.settleWinners]
  | cons w t ih =>
    intro players isFirst hmem
    have hw₁ : w.playerId ∈ players.map (·.id) := hmem w (List.mem_cons_self w t)
    have hfound : players.findIdx? (fun p => p.id == w.playerId) ≠ none := by
      rw [Ne, List.findIdx?_eq_none_iff]
      push_neg
      obtain ⟨q, hq, hqid⟩ := List.mem_map.mp hw₁
      exact ⟨q, hq, by simp [hqid]⟩
    obtain ⟨j, hj⟩ := Option.ne_none_iff_exists'.mp hfound
    have hjlt : j < players.length := by
      obtain ⟨hlt, -⟩ := List.findIdx?_eq_some_iff_getElem.mp hj
      exact hlt
    have hidsPreserved : (updAt players j
        (fun p => { p with chips := p.chips +
          (if isFirst then split + rem else split) })).map (·.id) =
        players.map (·.id) :=
      updAt_map_of_comp
        (fun p => { p with chips := p.chips + (if isFirst then split + rem else split) })
        (fun p => p.id) (fun x => rfl) players j
    unfold GameEngine.settleWinners
    simp only [hj]
    have hrec := ih (updAt players j
        (fun p => { p with chips := p.chips + (if isFirst then split + rem else split) }))
      false (by
        intro w₂ hw₂
        rw [hidsPreserved]
        exact hmem w₂ (List.mem_cons_of_mem w hw₂))
    simp only [List.map_cons, List.sum_cons, hrec,
      sum_map_updAt_chips _ players j hjlt]
    ring

theorem sum_filter_totalBet (l : List Player)
    (h : ∀ p ∈ l, p.folded = true → p.totalBet = 0) :
    ((l.filter (fun p => !p.folded)).map (·.totalBet)).sum =
      (l.map (·.totalBet)).sum := by
  induction l with
  | nil => rfl
  | cons x xs ih =>
    have ihx := ih (fun p hp hf => h p (List.mem_cons_of_mem x hp) hf)
    by_cases hx : x.folded = true
    · rw [List.filter_cons_of_neg (by simp [hx])]
      simp only [List.map_cons, List.sum_cons, h x (List.mem_cons_self x xs) hx, ihx]
      ring
    · rw [List.filter_cons_of_pos (by simp [hx])]
      simp only [List.map_cons, List.sum_cons, ihx]

theorem map_clearTurn_chips (l : List Player) :
    ((l.map (fun p => { p with isTurn := false })).map (·.chips)) =
      l.map (·.chips) := by
  rw [List.map_map]
  rfl

/-- Claim C1 (amended): the engine moves every bet into the pot at the
moment it is made, so the conserved quantity is
`Σ chips + Σ pot amounts` — street bets excluded, since they are already
counted inside the pot.  This quantity is invariant under blind posting and
the fold/check/call/raise/all-in handlers; the side-pot recomputation at a
phase advance preserves the pot total provided no folded player has
contributed chips to it; and settlement (`endHand`) credits the winners'
stacks with exactly the pot total (which stays recorded in the pot list
until the next hand resets it).  The formula of the claim,
`Σ chips + Σ street-bets + Σ pots`, double-counts street bets and already
changes when the first blind is posted. -/
theorem c1_conservation :
    (∀ (s : GameState) (i : Nat) (a : Int) (sb : Bool) (s₁ : GameState),
      GameEngine.postBlind s i a sb = some s₁ →
      sumChips s₁ + sumPots s₁ = sumChips s + sumPots s) ∧
    (∀ (s : GameState) (i : Nat) (p : Player), s.players[i]? = some p →
      sumChips (GameEngine.handleFold s i p) + sumPots (GameEngine.handleFold s i p) =
        sumChips s + sumPots s) ∧
    (∀ (s : GameState) (i : Nat) (p : Player), s.players[i]? = some p →
      sumChips (GameEngine.handleCheck s i p) + sumPots (GameEngine.handleCheck s i p) =
        sumChips s + sumPots s) ∧
    (∀ (s : GameState) (i : Nat) (p : Player) (s₁ : GameState),
      s.players[i]? = some p → GameEngine.handleCall s i p = some s₁ →
      sumChips s₁ + sumPots s₁ = sumChips s + sumPots s) ∧
    (∀ (s : GameState) (i : Nat) (p : Player) (a : Int) (s₁ : GameState),
      s.players[i]? = some p → GameEngine.handleRaise s i p a = some s₁ →
      sumChips s₁ + sumPots s₁ = sumChips s + sumPots s) ∧
    (∀ (s : GameState) (i : Nat) (p : Player) (s₁ : GameState),
      s.players[i]? = some p → GameEngine.handleAllIn s i p = some s₁ →
      sumChips s₁ + sumPots s₁ = sumChips s + sumPots s) ∧
    (∀ s : GameState, (∀ p ∈ s.players, p.folded = true → p.totalBet = 0) →
      sumPots s = (s.players.map (·.totalBet)).sum →
      sumChips (GameEngine.calculateSidePots s) + sumPots (GameEngine.calculateSidePots s) =
        sumChips s + sumPots s) ∧
    (∀ (s : GameState) (deck : List Card) (r : GameState × List Card),
      0 ≤ sumPots s → 1 ≤ (s.players.filter (fun p => !p.folded)).length →
      GameEngine.endHand s deck = some r →
      sumChips r.1 = sumChips s + sumPots s ∧ sumPots r.1 = sumPots s) := by
  refine ⟨?_, ?_, ?_, ?_, ?_, ?_, ?_, ?_⟩
  · -- postBlind
    intro s i a sb s₁ h
    unfold GameEngine.postBlind at h
    cases hp : s.players[i]? with
    | none => rw [hp] at h; simp only [Option.some.injEq] at h; rw [← h]
    | some p =>
      simp only [hp] at h
      by_cases hf : p.folded = true
      · rw [if_pos hf] at h
        simp only [Option.some.injEq] at h
        rw [← h]
      · rw [if_neg hf] at h
        cases hpots : s.pots with
        | nil => rw [hpots] at h; exact absurd h (by simp)
        | cons pot0 rest =>
          rw [hpots] at h
          simp only [Option.some.injEq] at h
          subst h
          simp only [sumChips, sumPots, List.map_cons, List.sum_cons, hpots,
            sum_map_set s.players (fun q => q.chips) i p _ hp]
          split_ifs <;> simp <;> ring
  · -- handleFold
    intro s i p hp
    unfold GameEngine.handleFold
    simp only [sumChips, sumPots, List.map_map,
      sum_map_set s.players (fun q => q.chips) i p _ hp]
    have hpots : (List.map ((fun (x : Pot) => x.amount) ∘ fun pot =>
        { pot with eligiblePlayers :=
            pot.eligiblePlayers.filter (fun pid => pid != p.id) }) s.pots) =
        List.map (fun (x : Pot) => x.amount) s.pots := rfl
    rw [hpots]
    ring
  · -- handleCheck
    intro s i p hp
    unfold GameEngine.handleCheck
    simp only [sumChips, sumPots,
      sum_map_set s.players (fun q => q.chips) i p _ hp]
    ring
  · -- handleCall
    intro s i p s₁ hp h
    unfold GameEngine.handleCall at h
    cases hpots : s.pots with
    | nil => rw [hpots] at h; exact absurd h (by simp)
    | cons pot0 rest =>
      rw [hpots] at h
      simp only [Option.some.injEq] at h
      subst h
      simp only [sumChips, sumPots, List.map_cons, List.sum_cons, hpots,
        sum_map_set s.players (fun q => q.chips) i p _ hp]
      split_ifs <;> simp <;> ring
  · -- handleRaise
    intro s i p a s₁ hp h
    unfold GameEngine.handleRaise at h
    cases hpots : s.pots with
    | nil => rw [hpots] at h; exact absurd h (by simp)
    | cons pot0 rest =>
      rw [hpots] at h
      simp only [Option.some.injEq] at h
      subst h
      simp only [sumChips, sumPots, List.map_cons, List.sum_cons, hpots,
        sum_map_set s.players (fun q => q.chips) i p _ hp]
      split_ifs <;> simp <;> ring
  · -- handleAllIn
    intro s i p s₁ hp h
    unfold GameEngine.handleAllIn at h
    cases hpots : s.pots with
    | nil => rw [hpots] at h; exact absurd h (by simp)
    | cons pot0 rest =>
      rw [hpots] at h
      simp only [Option.some.injEq] at h
      subst h
      simp only [sumChips, sumPots, List.map_cons, List.sum_cons, hpots,
        sum_map_set s.players (fun q => q.chips) i p _ hp]
      simp
      ring
  · -- calculateSidePots
    intro s hfold hpots
    unfold GameEngine.calculateSidePots
    by_cases hall : ((s.players.filter (fun p => !p.folded)).filter
        (fun p => p.isAllIn)).length = 0
    · rw [if_pos hall]
    · rw [if_neg hall]
      simp only [sumChips, sumPots, List.map_cons, List.map_nil, List.sum_cons,
        List.sum_nil]
      rw [sum_filter_totalBet s.players hfold, ← hpots]
      simp [sumPots]
  · -- endHand
    intro s deck r hT hlive hend
    unfold GameEngine.endHand at hend
    cases hact : s.players.filter (fun p => !p.folded) with
    | nil => rw [hact] at hlive; simp at hlive
    | cons p1 rest =>
    cases rest with
    | nil =>
      -- single winner: everyone else folded
      simp only [hact] at hend
      unfold GameEngine.endHandFinish at hend
      simp only [Option.some.injEq] at hend
      subst hend
      have hwmem : p1 ∈ s.players.filter (fun p => !p.folded) := by
        rw [hact]; exact List.mem_cons_self p1 []
      rw [List.mem_filter] at hwmem
      constructor
      · simp only [sumChips, map_clearTurn_chips]
        rw [creditFirstWhere_sum (fun p => !p.folded) (sumPots s) s.players
          ⟨p1, hwmem.1, hwmem.2⟩]
      · rfl
    | cons p2 rest2 =>
      simp only [hact] at hend
      rw [← hact] at hend
      cases hdeal : GameEngine.endHandDealLoop deck.length s.communityCards deck with
      | none => rw [hdeal] at hend; exact Option.noConfusion hend
      | some cd =>
        obtain ⟨comm, deck₁⟩ := cd
        simp only [hdeal] at hend
        cases hmap : mapOpt (fun p => (GameEngine.seqCards p.cards).map
            (fun cs => PlayerHand.mk p.id cs comm))
            (s.players.filter (fun p => !p.folded)) with
        | none => rw [hmap] at hend; exact Option.noConfusion hend
        | some playerHands =>
          simp only [hmap] at hend
          cases hwin : findWinners playerHands with
          | none => rw [hwin] at hend; exact Option.noConfusion hend
          | some winners =>
            simp only [hwin] at hend
            unfold GameEngine.endHandFinish at hend
            simp only [Option.some.injEq] at hend
            subst hend
            have hphlen : playerHands.length =
                (s.players.filter (fun p => !p.folded)).length := mapOpt_length hmap
            have hphne : playerHands ≠ [] := by
              intro hnil
              rw [hnil, hact] at hphlen
              simp at hphlen
            have hwne : winners ≠ [] := findWinners_ne_nil hwin hphne
            obtain ⟨w₁, t, hw⟩ := List.exists_cons_of_ne_nil hwne
            have hids : playerHands.map (·.playerId) =
                (s.players.filter (fun p => !p.folded)).map (·.id) :=
              mapOpt_map_eq (by
                intro a b hab
                cases hsq : GameEngine.seqCards a.cards with
                | none => rw [hsq] at hab; simp at hab
                | some cs =>
                  rw [hsq] at hab
                  simp only [Option.map_some', Option.some.injEq] at hab
                  simp [← hab])
                hmap
            have hallmem : ∀ w ∈ winners, w.playerId ∈ s.players.map (·.id) := by
              intro w hwmem
              have h1 : w.playerId ∈ playerHands.map (·.playerId) :=
                findWinners_ids hwin w hwmem
              rw [hids] at h1
              obtain ⟨q, hq, hqid⟩ := List.mem_map.mp h1
              exact List.mem_map.mpr ⟨q, List.mem_of_mem_filter hq, hqid⟩
            have hfound : s.players.findIdx? (fun p => p.id == w₁.playerId) ≠ none := by
              rw [Ne, List.findIdx?_eq_none_iff]
              push_neg
              obtain ⟨q, hq, hqid⟩ := List.mem_map.mp
                (hallmem w₁ (hw ▸ List.mem_cons_self w₁ t))
              exact ⟨q, hq, by simp [hqid]⟩
            obtain ⟨j, hj⟩ := Option.ne_none_iff_exists'.mp hfound
            have hamounts :
                ((GameEngine.settleWinners (Int.fdiv (sumPots s) (winners.length : Int))
                    (Int.tmod (sumPots s) (winners.length : Int)) true
                    s.players winners).2.map (·.amount)) =
                  (Int.fdiv (sumPots s) (winners.length : Int) +
                      Int.tmod (sumPots s) (winners.length : Int)) ::
                    List.replicate t.length
                      (Int.fdiv (sumPots s) (winners.length : Int)) := by
              rw [hw]
              exact settleWinners_amounts_true _ _ _ _ _ j hj
            have hsum : ((GameEngine.settleWinners
                (Int.fdiv (sumPots s) (winners.length : Int))
                (Int.tmod (sumPots s) (winners.length : Int)) true
                s.players winners).2.map (·.amount)).sum = sumPots s := by
              rw [hamounts, List.sum_cons, List.sum_replicate, nsmul_eq_mul]
              have hfd : Int.fdiv (sumPots s) (winners.length : Int) =
                  sumPots s / (winners.length : Int) :=
                Int.fdiv_eq_ediv _ (by omega)
              have htm : Int.tmod (sumPots s) (winners.length : Int) =
                  sumPots s % (winners.length : Int) :=
                Int.tmod_eq_emod hT (by omega)
              rw [hfd, htm]
              have hwl : ((winners.length : Int)) = (t.length : Int) + 1 := by
                rw [hw]; simp
              have hdm := Int.ediv_add_emod (sumPots s) (winners.length : Int)
              rw [hwl] at hdm ⊢
              linarith [hdm]
            constructor
            · simp only [sumChips, map_clearTurn_chips]
              rw [settleWinners_sumChips _ _ winners s.players true hallmem, hsum]
            · rfl

/-- The acting player of `c1State`. -/
def c1PlayerA : Player := { samplePlayer with id := "A", chips := 100, isTurn := true }

/-- The state after the call handler runs for player A in `c1State`. -/
def c1CallResult : GameState :=
  (GameEngine.handleCall c1State 0 c1PlayerA).getD c1State

/-- A two-player state in which everyone but W folded. -/
def c1EndState : GameState :=
  { sampleState with
    players := [
      { samplePlayer with id := "W", chips := 10 },
      { samplePlayer with id := "L", chips := 5, folded := true }],
    pots := [⟨30, ["W"]⟩] }

/-- The state after `endHand` settles `c1EndState`. -/
def c1EndResult : GameState × List Card :=
  (GameEngine.endHand c1EndState []).getD (c1EndState, [])

/-- Claim C1 witness: a concrete call preserves `Σ chips + Σ pots`, and a
concrete settlement credits the winner with exactly the pot total. -/
theorem c1_witness :
    (sumChips c1CallResult + sumPots c1CallResult =
      sumChips c1State + sumPots c1State) ∧
    (sumChips c1EndResult.1 = sumChips c1EndState + sumPots c1EndState ∧
      sumPots c1EndResult.1 = sumPots c1EndState) :=
  ⟨c1_conservation.2.2.2.1 c1State 0 c1PlayerA c1CallResult (by decide) (by decide),
   c1_conservation.2.2.2.2.2.2.2 c1EndState [] c1EndResult (by decide) (by decide)
     (by decide)⟩

/-! ## Claim C3 -/

theorem getElem?_updAt_ne (f : α → α) :
    ∀ (l : List α) (i k : Nat), k ≠ i → (updAt l i f)[k]? = l[k]? := by
  intro l
  induction l with
  | nil => intro i k _; rfl
  | cons x xs ih =>
    intro i k hk
    cases i with
    | zero =>
      cases k with
      | zero => exact absurd rfl hk
      | succ n => simp [updAt]
    | succ m =>
      cases k with
      | zero => simp [updAt]
      | succ n =>
        simp only [updAt, List.getElem?_cons_succ]
        exact ih m n (by omega)

theorem getElem?_updAt_self (f : α → α) :
    ∀ (l : List α) (i : Nat), (updAt l i f)[i]? = (l[i]?).map f := by
  intro l
  induction l with
  | nil => intro i; rfl
  | cons x xs ih =>
    intro i
    cases i with
    | zero => simp [updAt]
    | succ n => simpa [updAt] using ih n

theorem find?_of_findIdx? {f : α → Bool} :
    ∀ {l : List α} {i : Nat} {x : α},
      l.findIdx? f = some i → l[i]? = some x → l.find? f = some x := by
  intro l
  induction l with
  | nil => intro i x h; simp at h
  | cons a t ih =>
    intro i x hidx hget
    rw [List.findIdx?_cons] at hidx
    by_cases hfa : f a = true
    · rw [if_pos hfa] at hidx
      simp only [Option.some.injEq] at hidx
      subst hidx
      simp only [List.getElem?_cons_zero, Option.some.injEq] at hget
      subst hget
      exact List.find?_cons_of_pos _ hfa
    · rw [if_neg hfa, List.findIdx?_succ] at hidx
      cases hidx₀ : t.findIdx? f with
      | none => rw [hidx₀] at hidx; simp at hidx
      | some m =>
        rw [hidx₀] at hidx
        simp only [Option.map_some', Option.some.injEq] at hidx
        subst hidx
        simp only [List.getElem?_cons_succ] at hget
        rw [List.find?_cons_of_neg _ (by simpa using hfa)]
        exact ih hidx₀ hget

theorem two_le_length_filter {f : α → Bool} :
    ∀ (l : List α) (i j : Nat) (x y : α), i ≠ j →
      l[i]? = some x → l[j]? = some y → f x = true → f y = true →
      2 ≤ (l.filter f).length := by
  intro l
  induction l with
  | nil => intro i j x y _ hx _ _ _; simp at hx
  | cons a t ih =>
    intro i j x y hij hx hy hfx hfy
    cases i with
    | zero =>
      simp only [List.getElem?_cons_zero, Option.some.injEq] at hx
      subst hx
      cases j with
      | zero => exact absurd rfl hij
      | succ m =>
        simp only [List.getElem?_cons_succ] at hy
        rw [List.filter_cons_of_pos hfx]
        have : y ∈ t.filter f :=
          List.mem_filter.mpr ⟨List.getElem?_mem hy, hfy⟩
        have := List.length_pos_of_mem this
        simp only [List.length_cons]
        omega
    | succ n =>
      simp only [List.getElem?_cons_succ] at hx
      cases j with
      | zero =>
        simp only [List.getElem?_cons_zero, Option.some.injEq] at hy
        subst hy
        rw [List.filter_cons_of_pos hfy]
        have : x ∈ t.filter f :=
          List.mem_filter.mpr ⟨List.getElem?_mem hx, hfx⟩
        have := List.length_pos_of_mem this
        simp only [List.length_cons]
        omega
      | succ m =>
        simp only [List.getElem?_cons_succ] at hy
        have h2 := ih n m x y (by omega) hx hy hfx hfy
        by_cases hfa : f a = true
        · rw [List.filter_cons_of_pos hfa]
          simp only [List.length_cons]
          omega
        · rw [List.filter_cons_of_neg (by simpa using hfa)]
          exact h2

/-- `advanceToNextPlayer` never touches the acted-this-street flags. -/
theorem advance_acted (s : GameState) (k : Nat) :
    (((GameEngine.advanceToNextPlayer s).players[k]?).map (·.hasActedThisRound)) =
      ((s.players[k]?).map (·.hasActedThisRound)) := by
  unfold GameEngine.advanceToNextPlayer GameEngine.setCurrentPlayerTurn
  set n := GameEngine.advanceLoop s.players s.currentPlayerIndex (s.players.length - 1)
    with hn
  cases hc : s.players[n]? with
  | none =>
    simp only [List.getElem?_map, hc, Option.map_none']
    cases hk : s.players[k]? <;> simp [List.getElem?_map, hk]
  | some current =>
    simp only [List.getElem?_map, hc, Option.map_some']
    have hlt : n < s.players.length := by
      by_contra hge
      rw [List.getElem?_eq_none (by omega)] at hc
      exact Option.noConfusion hc
    split
    · by_cases hkn : k = n
      · subst hkn
        rw [List.getElem?_set_self (by simpa using hlt)]
        rw [hc]
        rfl
      · rw [List.getElem?_set_ne (by omega)]
        cases hk : s.players[k]? <;> simp [List.getElem?_map, hk]
    · cases hk : s.players[k]? <;> simp [List.getElem?_map, hk]

/-- A live unmatched player keeps the betting round open. -/
theorem roundNotOver (s : GameState) (j : Nat) (q : Player)
    (hj : s.players[j]? = some q) (hqf : q.folded = false) (hqa : q.isAllIn = false)
    (hqb : ¬ q.bet = s.currentBet) : GameEngine.isBettingRoundOver s = false := by
  have hmem : q ∈ s.players.filter (fun p => !p.folded && !p.isAllIn) :=
    List.mem_filter.mpr ⟨List.getElem?_mem hj, by simp [hqf, hqa]⟩
  unfold GameEngine.isBettingRoundOver
  rw [if_neg (by
    intro h0
    rw [List.length_eq_zero] at h0
    rw [h0] at hmem
    simp at hmem)]
  rw [List.all_eq_false]
  exact ⟨q, hmem, by simp [hqb]⟩

/-- Two distinct live seats and an open betting round keep the hand open. -/
theorem handNotOver (s : GameState) (i j : Nat) (pi qj : Player)
    (hij : i ≠ j) (hi : s.players[i]? = some pi) (hj : s.players[j]? = some qj)
    (hpf : pi.folded = false) (hqf : qj.folded = false)
    (hround : GameEngine.isBettingRoundOver s = false) :
    GameEngine.isHandOver s = false := by
  unfold GameEngine.isHandOver
  have h2 : 2 ≤ (s.players.filter (fun p => !p.folded)).length :=
    two_le_length_filter s.players i j pi qj hij hi hj (by simp [hpf]) (by simp [hqf])
  rw [if_neg (by omega)]
  rw [hround]
  simp

/-- When another live player is unmatched, the shared tail of
`processAction` passes the turn along without ending street or hand. -/
theorem processActionFinish_advance (s₂ : GameState) (deck : List Card) (i : Nat)
    (pid : String) (act : PlayerAction) (amt : Option Int)
    (ip : Player) (hi2 : s₂.players[i]? = some ip) (hpf : ip.folded = false)
    (j : Nat) (q : Player) (hj : s₂.players[j]? = some q) (hji : j ≠ i)
    (hqf : q.folded = false) (hqa : q.isAllIn = false)
    (hqb : ¬ q.bet = s₂.currentBet) :
    GameEngine.processActionFinish s₂ deck i pid act amt =
      some (true, GameEngine.advanceToNextPlayer
        { s₂ with
          players := updAt s₂.players i (fun p => { p with hasActedThisRound := true }),
          lastAction := some ⟨pid, act, amt, s₂.phase⟩ }, deck) := by
  have hj4 : ({ s₂ with
      players := updAt s₂.players i (fun p => { p with hasActedThisRound := true }),
      lastAction := some ⟨pid, act, amt, s₂.phase⟩ } : GameState).players[j]? = some q := by
    simp only []
    rw [getElem?_updAt_ne _ _ _ _ hji]
    exact hj
  have hi4 : ({ s₂ with
      players := updAt s₂.players i (fun p => { p with hasActedThisRound := true }),
      lastAction := some ⟨pid, act, amt, s₂.phase⟩ } : GameState).players[i]? =
      some { ip with hasActedThisRound := true } := by
    simp only []
    rw [getElem?_updAt_self]
    rw [hi2]
    rfl
  have hround : GameEngine.isBettingRoundOver { s₂ with
      players := updAt s₂.players i (fun p => { p with hasActedThisRound := true }),
      lastAction := some ⟨pid, act, amt, s₂.phase⟩ } = false :=
    roundNotOver _ j q hj4 hqf hqa hqb
  have hhand : GameEngine.isHandOver { s₂ with
      players := updAt s₂.players i (fun p => { p with hasActedThisRound := true }),
      lastAction := some ⟨pid, act, amt, s₂.phase⟩ } = false :=
    handNotOver _ i j { ip with hasActedThisRound := true } q (fun h => hji h.symm)
      hi4 hj4 hpf hqf hround
  unfold GameEngine.processActionFinish
  rw [if_neg (by rw [hhand]; simp), if_neg (by rw [hround]; simp)]

theorem resetFlag_folded (pid : String) (q : Player) :
    (GameEngine.resetFlag pid q).folded = q.folded := by
  unfold GameEngine.resetFlag; split <;> rfl

theorem resetFlag_isAllIn (pid : String) (q : Player) :
    (GameEngine.resetFlag pid q).isAllIn = q.isAllIn := by
  unfold GameEngine.resetFlag; split <;> rfl

theorem resetFlag_bet (pid : String) (q : Player) :
    (GameEngine.resetFlag pid q).bet = q.bet := by
  unfold GameEngine.resetFlag; split <;> rfl

theorem resetFlag_acted_of (pid : String) (q : Player) (h1 : q.id ≠ pid)
    (hf : q.folded = false) (ha : q.isAllIn = false) :
    (GameEngine.resetFlag pid q).hasActedThisRound = false := by
  unfold GameEngine.resetFlag
  rw [if_pos (by simp [h1, hf, ha])]

theorem resetFlag_of_allIn (pid : String) (q : Player) (h : q.isAllIn = true) :
    GameEngine.resetFlag pid q = q := by
  unfold GameEngine.resetFlag
  rw [if_neg (by simp [h])]

theorem resetOthers_getElem? (s : GameState) (pid : String) (k : Nat) :
    (GameEngine.resetOthersActed s pid).players[k]? =
      (s.players[k]?).map (GameEngine.resetFlag pid) := by
  unfold GameEngine.resetOthersActed
  simp [List.getElem?_map]

theorem resetOthers_currentBet (s : GameState) (pid : String) :
    (GameEngine.resetOthersActed s pid).currentBet = s.currentBet := rfl

theorem handleAllIn_spec (s : GameState) (i : Nat) (p : Player)
    (pot0 : Pot) (rest : List Pot) (hpots : s.pots = pot0 :: rest) :
    ∃ sA, GameEngine.handleAllIn s i p = some sA ∧
      sA.players = s.players.set i
        { p with
          chips := 0, bet := p.bet + p.chips,
          totalBet := p.totalBet + p.chips, isAllIn := true, isTurn := false } ∧
      sA.currentBet =
        (if s.currentBet < p.bet + p.chips then p.bet + p.chips else s.currentBet) ∧
      sA.phase = s.phase := by
  unfold GameEngine.handleAllIn
  rw [hpots]
  exact ⟨_, rfl, rfl, rfl, rfl⟩

/-- A heads-up state where P0, holding 25 chips against a 20-chip current
bet with a 20-chip minimum raise, can only make a short all-in. -/
def c3State : GameState :=
  { sampleState with
    players := [
      { samplePlayer with id := "P0", chips := 25, isTurn := true },
      { samplePlayer with
        id := "P1", chips := 60, bet := 20, totalBet := 20,
        hasActedThisRound := true }],
    pots := [⟨20, ["P0", "P1"]⟩],
    currentBet := 20 }

/-- The outcome of P0's short all-in in `c3State`. -/
def c3Run : Bool × GameState × List Card :=
  (GameEngine.processAction c3State [] "P0" PlayerAction.allIn none).getD
    (false, c3State, [])

/-- Claim C3 counterexample: P0's all-in to 25 exceeds the 20-chip current
bet by only 5, less than the 20-chip minimum raise, yet P1's
acted-this-street flag is cleared — the claim says it must not be. -/
theorem c3_counterexample :
    (GameEngine.processAction c3State [] "P0" PlayerAction.allIn none).isSome = true ∧
    c3Run.1 = true ∧
    c3State.minRaise = 20 ∧ c3State.currentBet = 20 ∧
    ((25 : Int) - 20 < 20) ∧
    (c3State.players[1]?.map (·.hasActedThisRound)) = some true ∧
    (c3Run.2.1.players[1]?.map (·.hasActedThisRound)) = some false := by decide

/-- Claim C3 (amended): an all-in via `processAction` clears the other
live players' acted-this-street flags exactly when the all-in total exceeds
the current bet at all — by any positive amount, not only by a full minimum
raise; a short all-in above the current bet still re-opens action.  (The
unmatched player `q` keeps the street open, so no phase advance interferes
with the observation.) -/
theorem c3_allin_reopen (s : GameState) (deck : List Card) (pid : String)
    (i : Nat) (p : Player)
    (hidx : s.players.findIdx? (fun x => x.id == pid) = some i)
    (hget : s.players[i]? = some p)
    (hTurn : p.isTurn = true) (hNf : p.folded = false) (hNa : p.isAllIn = false)
    (hChips : 0 < p.chips)
    (pot0 : Pot) (rest : List Pot) (hpots : s.pots = pot0 :: rest)
    (j : Nat) (q : Player) (hj : s.players[j]? = some q) (hji : j ≠ i)
    (hqf : q.folded = false) (hqa : q.isAllIn = false)
    (hqb : q.bet < s.currentBet) :
    ∃ s₁, GameEngine.processAction s deck pid PlayerAction.allIn none =
        some (true, s₁, deck) ∧
      ∀ (k : Nat) (r : Player), k ≠ i → r.id ≠ pid → s.players[k]? = some r →
        r.folded = false → r.isAllIn = false →
        ((s₁.players[k]?).map (·.hasActedThisRound)) =
          some (if s.currentBet < p.bet + p.chips then false
            else r.hasActedThisRound) := by
  have hilen : i < s.players.length := by
    by_contra hge
    rw [List.getElem?_eq_none (by omega)] at hget
    exact Option.noConfusion hget
  have hfind : s.players.find? (fun x => x.id == pid) = some p :=
    find?_of_findIdx? hidx hget
  have hmemAll : PlayerAction.allIn ∈ GameEngine.getValidActions s pid := by
    unfold GameEngine.getValidActions
    simp only [hfind]
    rw [if_neg (by simp [hNf, hNa])]
    simp [hChips]
  have hcont : (GameEngine.getValidActions s pid).contains PlayerAction.allIn = true := by
    simpa using hmemAll
  obtain ⟨sA, hAll, hAplayers, hAcb, hAphase⟩ := handleAllIn_spec s i p pot0 rest hpots
  have hiA : sA.players[i]? = some
      { p with
        chips := 0, bet := p.bet + p.chips,
        totalBet := p.totalBet + p.chips, isAllIn := true, isTurn := false } := by
    rw [hAplayers, List.getElem?_set_self hilen]
  have hjA : sA.players[j]? = some q := by
    rw [hAplayers, List.getElem?_set_ne (by omega), hj]
  by_cases hre : s.currentBet < p.bet + p.chips
  · -- the all-in raises the current bet: action re-opens
    have hcb : sA.currentBet = p.bet + p.chips := by rw [hAcb, if_pos hre]
    refine ⟨GameEngine.advanceToNextPlayer
      { GameEngine.resetOthersActed sA pid with
        players := updAt (GameEngine.resetOthersActed sA pid).players i
          (fun x => { x with hasActedThisRound := true }),
        lastAction := some ⟨pid, PlayerAction.allIn, none,
          (GameEngine.resetOthersActed sA pid).phase⟩ }, ?_, ?_⟩
    · unfold GameEngine.processAction
      simp only [hidx, hget]
      rw [if_neg (by simp [hTurn, hNf])]
      rw [if_neg (by simp [hmemAll])]
      simp only [hAll]
      rw [if_pos (by rw [hcb]; exact hre)]
      exact processActionFinish_advance (GameEngine.resetOthersActed sA pid) deck i
        pid PlayerAction.allIn none
        { p with
          chips := 0, bet := p.bet + p.chips,
          totalBet := p.totalBet + p.chips, isAllIn := true, isTurn := false }
        (by rw [resetOthers_getElem?, hiA]
            simp only [Option.map_some']
            rw [resetFlag_of_allIn _ _ rfl])
        hNf
        j (GameEngine.resetFlag pid q)
        (by rw [resetOthers_getElem?, hjA]; rfl)
        hji
        (by rw [resetFlag_folded]; exact hqf)
        (by rw [resetFlag_isAllIn]; exact hqa)
        (by rw [resetFlag_bet, resetOthers_currentBet, hcb]; omega)
    · intro k r hk hrid hkr hrf hra
      rw [advance_acted]
      simp only []
      rw [getElem?_updAt_ne _ _ _ _ hk]
      rw [resetOthers_getElem?, hAplayers, List.getElem?_set_ne (by omega), hkr]
      simp only [Option.map_some']
      rw [if_pos hre]
      rw [resetFlag_acted_of _ _ hrid hrf hra]
  · -- the all-in does not raise the current bet: flags untouched
    have hcb : sA.currentBet = s.currentBet := by rw [hAcb, if_neg hre]
    refine ⟨GameEngine.advanceToNextPlayer
      { sA with
        players := updAt sA.players i (fun x => { x with hasActedThisRound := true }),
        lastAction := some ⟨pid, PlayerAction.allIn, none, sA.phase⟩ }, ?_, ?_⟩
    · unfold GameEngine.processAction
      simp only [hidx, hget]
      rw [if_neg (by simp [hTurn, hNf])]
      rw [if_neg (by simp [hmemAll])]
      simp only [hAll]
      rw [if_neg (by rw [hcb]; omega)]
      exact processActionFinish_advance sA deck i pid PlayerAction.allIn none
        { p with
          chips := 0, bet := p.bet + p.chips,
          totalBet := p.totalBet + p.chips, isAllIn := true, isTurn := false }
        hiA hNf j q hjA hji hqf hqa (by rw [hcb]; omega)
    · intro k r hk hrid hkr hrf hra
      rw [advance_acted]
      simp only []
      rw [getElem?_updAt_ne _ _ _ _ hk]
      rw [hAplayers, List.getElem?_set_ne (by omega), hkr]
      rw [if_neg hre]
      rfl

/-- A heads-up state with a 30-chip current bet that P0's 25-chip stack
cannot match. -/
def c3wState : GameState :=
  { sampleState with
    players := [
      { samplePlayer with id := "P0", chips := 25, isTurn := true },
      { samplePlayer with
        id := "P1", chips := 60, bet := 20, totalBet := 20,
        hasActedThisRound := true }],
    pots := [⟨50, ["P0", "P1"]⟩],
    currentBet := 30 }

/-- The acting player of `c3wState`. -/
def c3wP0 : Player := { samplePlayer with id := "P0", chips := 25, isTurn := true }

/-- The opponent of `c3wState`. -/
def c3wP1 : Player :=
  { samplePlayer with
    id := "P1", chips := 60, bet := 20, totalBet := 20, hasActedThisRound := true }

/-- Claim C3 witness: P0's 25-chip all-in under a 30-chip current bet does
not raise the bet, so the other live players' acted flags are untouched. -/
theorem c3_witness :
    ∃ s₁, GameEngine.processAction c3wState [] "P0" PlayerAction.allIn none =
        some (true, s₁, []) ∧
      ∀ (k : Nat) (r : Player), k ≠ 0 → r.id ≠ "P0" →
        c3wState.players[k]? = some r →
        r.folded = false → r.isAllIn = false →
        ((s₁.players[k]?).map (·.hasActedThisRound)) =
          some (if c3wState.currentBet < c3wP0.bet + c3wP0.chips then false
            else r.hasActedThisRound) :=
  c3_allin_reopen c3wState [] "P0" 0 c3wP0 (by decide) (by decide) (by decide)
    (by decide) (by decide) (by decide) ⟨50, ["P0", "P1"]⟩ [] (by decide)
    1 c3wP1 (by decide) (by decide) (by decide) (by decide) (by decide)

end Holdem
